import Mathlib

/-!
# Event reservation system: admission table and seat ledger

A shallow embedding of `EventReservationSystem.cpp`.

* C++ `int` values are integers of `Int`. The quantities a run of the program
  produces (slot indices, event ids, seat counts between 0 and the auditorium
  capacity) are bounded by the constants, far inside the 32-bit range.
* The globals `sharedTable`, `availableSeats`, `tableMutex`, `seatMutex` and the
  standard output are the fields of `State`, passed explicitly.
* A call that blocks for ever (a mutex that is never released, a condition
  variable that is never signalled) has result `none`.
* `rand()` is a parameter: each call site receives the natural number that
  `rand()` returned there.
-/

namespace EventReservationSystem

/-! ## Constants (lines 11-17) -/

/-- Number of events; valid event ids are `1 .. numOfEvents`. -/
def numOfEvents : Nat := 100

/-- Capacity of the auditorium, the initial value of every seat counter. -/
def capacityOfAuditorium : Int := 500

/-- Number of worker threads. -/
def numOfWorkerThreads : Nat := 20

/-- Size of the shared table of active queries. -/
def maxActiveQueries : Nat := 5

/-- Least number of tickets in one booking. -/
def minTickets : Int := 5

/-- Greatest number of tickets in one booking. -/
def maxTickets : Int := 10

/-! ## Data model (lines 21-38) -/

/-- Entry of the shared table (lines 21-25): `eventId = 0` marks a free slot,
`qType` is 0 for INQUIRE, 1 for BOOK, 2 for CANCEL. -/
structure queryInfo where
  eventId : Int
  qType : Int
  threadId : Int
deriving DecidableEq, Repr

/-- Lines written to standard output by the `printf` calls of the three
operations, with the values they print. -/
inductive Msg where
  | inquireFull (tId eId : Int)
  | inquireSeats (tId eId seats : Int)
  | bookFail (tId eId seats : Int)
  | bookOk (tId eId seats : Int)
  | cancelNone (tId : Int)
  | cancelOk (tId eId seats : Int)
deriving DecidableEq, Repr

/-- Global state of the program: the table `sharedTable[maxActiveQueries]`
(line 30), the vector `availableSeats` (line 33), one flag per mutex (`true`
when the mutex is held) and the output written so far. -/
structure State where
  sharedTable : List queryInfo
  availableSeats : List Int
  tableMutex : Bool
  seatMutex : Bool
  out : List Msg
deriving DecidableEq, Repr

/-- Zero-initialised global table (line 30). -/
def initTable : List queryInfo := List.replicate maxActiveQueries ⟨0, 0, 0⟩

/-- Initial seat vector `availableSeats(numOfEvents+1, capacityOfAuditorium)`
(line 33). -/
def initSeats : List Int := List.replicate (numOfEvents + 1) capacityOfAuditorium

/-- Read access `availableSeats[eId]`. -/
def seatsAt (availableSeats : List Int) (eId : Int) : Int :=
  availableSeats.getD eId.toNat 0

/-! ## Table predicates (lines 323-356) -/

/-- Loop of `findBlankEntry` (lines 350-355) over the slots from index `i` on:
the index of the first slot whose `eventId` is 0, or -1. -/
def findBlankEntryFrom : List queryInfo → Nat → Int
  | [], _ => -1
  | q :: rest, i => if q.eventId = 0 then (i : Int) else findBlankEntryFrom rest (i + 1)

/-- Function `findBlankEntry` (lines 349-356). -/
def findBlankEntry (sharedTable : List queryInfo) : Int :=
  findBlankEntryFrom sharedTable 0

/-- Function `canRead` (lines 323-331): false as soon as a slot has the event
id with a query type other than 0. -/
def canRead : List queryInfo → Int → Bool
  | [], _ => true
  | q :: rest, eventId =>
    if q.eventId = eventId ∧ q.qType ≠ 0 then false else canRead rest eventId

/-- Function `canWrite` (lines 336-344): false as soon as a slot has the event
id. -/
def canWrite : List queryInfo → Int → Bool
  | [], _ => true
  | q :: rest, eventId =>
    if q.eventId = eventId then false else canWrite rest eventId

/-! ## Random numbers (lines 96-98) -/

/-- Function `getRandomNumberInRange`, `rand() % (n - m + 1) + m`, where `rand`
is the value returned by `rand()`; `%` of C++ truncates. -/
def getRandomNumberInRange (rand : Nat) (m n : Int) : Int :=
  Int.tmod (rand : Int) (n - m + 1) + m

/-! ## pthread primitives -/

/-- Call `pthread_mutex_lock(&tableMutex)`: blocks for ever when the mutex is
held, since the caller is the only running thread of a sequential run. -/
def lockTable (s : State) : Option State :=
  if s.tableMutex = true then none else some { s with tableMutex := true }

/-- Call `pthread_mutex_unlock(&tableMutex)`. -/
def unlockTable (s : State) : State := { s with tableMutex := false }

/-- Call `pthread_mutex_lock(&seatMutex)`. -/
def lockSeat (s : State) : Option State :=
  if s.seatMutex = true then none else some { s with seatMutex := true }

/-- Call `pthread_mutex_unlock(&seatMutex)`. -/
def unlockSeat (s : State) : State := { s with seatMutex := false }

/-- Call `pthread_cond_wait(&tableCondition, &tableMutex)`. The mutex is
released while the caller sleeps and held again when the call returns. `wake`
is the table the other threads have left at the moment the caller is woken, or
`none` when it is never woken. -/
def condWait (wake : Option (List queryInfo)) (s : State) : Option State :=
  match wake with
  | none => none
  | some tbl => some { s with sharedTable := tbl }

/-! ## Admission and release

The three operations contain the same admission code (lines 154-174, 204-225,
275-296) up to the predicate and the query type, and the same release code
(lines 189-194, 247-252, 312-315). -/

/-- Admission code. Result `(none, s)`: the caller returns at the second
`tableEntry == -1` test (lines 166, 217, 288), and `tableMutex` is still held
in `s`. Result `(some tableEntry, s)`: the slot has been written and the mutex
released. -/
def enterTable (can : List queryInfo → Int → Bool) (qType eId tId : Int)
    (wake : Option (List queryInfo)) (s : State) : Option (Option Int × State) :=
  match lockTable s with
  | none => none
  | some s1 =>
    match (if findBlankEntry s1.sharedTable = -1 ∨ can s1.sharedTable eId = false
           then condWait wake s1 else some s1) with
    | none => none
    | some s2 =>
      let tableEntry := findBlankEntry s2.sharedTable
      if tableEntry = -1 then some (none, s2)
      else
        some (some tableEntry,
          unlockTable { s2 with
            sharedTable := s2.sharedTable.set tableEntry.toNat ⟨eId, qType, tId⟩ })

/-- Assignment `sharedTable[tableEntry].eventId = 0`. -/
def clearSlot (sharedTable : List queryInfo) (tableEntry : Int) : List queryInfo :=
  sharedTable.modify (fun q => { q with eventId := 0 }) tableEntry.toNat

/-- Release code: lock the table, clear the slot, unlock, signal. The signal
has no effect on the state of a sequential run. -/
def exitTable (tableEntry : Int) (s : State) : Option State :=
  match lockTable s with
  | none => none
  | some s1 => some (unlockTable { s1 with sharedTable := clearSlot s1.sharedTable tableEntry })

/-! ## The three operations -/

/-- Function `inquireEvent` (lines 151-196). -/
def inquireEvent (eId tId : Int) (wake : Option (List queryInfo)) (s : State) :
    Option State :=
  match enterTable canRead 0 eId tId wake s with
  | none => none
  | some (none, s1) => some s1
  | some (some tableEntry, s1) =>
    match lockSeat s1 with
    | none => none
    | some s2 =>
      let s3 : State :=
        if seatsAt s2.availableSeats eId = 0 then
          { s2 with out := s2.out ++ [Msg.inquireFull tId eId] }
        else
          { s2 with out := s2.out ++ [Msg.inquireSeats tId eId (seatsAt s2.availableSeats eId)] }
      exitTable tableEntry (unlockSeat s3)

/-- Function `bookEvent` (lines 201-255): the returned `int` and the final
state. -/
def bookEvent (eId seatsToBook tId : Int) (wake : Option (List queryInfo)) (s : State) :
    Option (Int × State) :=
  match enterTable canWrite 1 eId tId wake s with
  | none => none
  | some (none, s1) => some (-1, s1)
  | some (some tableEntry, s1) =>
    match lockSeat s1 with
    | none => none
    | some s2 =>
      if seatsToBook > seatsAt s2.availableSeats eId then
        some (-1, unlockSeat { s2 with out := s2.out ++ [Msg.bookFail tId eId seatsToBook] })
      else
        let s3 : State :=
          { s2 with
            out := s2.out ++ [Msg.bookOk tId eId seatsToBook],
            availableSeats :=
              s2.availableSeats.set eId.toNat (seatsAt s2.availableSeats eId - seatsToBook) }
        match exitTable tableEntry (unlockSeat s3) with
        | none => none
        | some s4 => some (1, s4)

/-- Function `cancelEvent` (lines 260-318): the returned `int`, the vector
`bookings` after the call and the final state. `randPos` and `randSeats` are
the two values of `rand()` drawn at lines 270 and 271. -/
def cancelEvent (tId : Int) (bookings : List (Int × Int)) (randPos randSeats : Nat)
    (wake : Option (List queryInfo)) (s : State) :
    Option (Int × List (Int × Int) × State) :=
  let totalBookings : Int := bookings.length
  if totalBookings < 1 then
    some (-1, bookings, { s with out := s.out ++ [Msg.cancelNone tId] })
  else
    let pos := getRandomNumberInRange randPos 0 (totalBookings - 1)
    let numOfSeats := getRandomNumberInRange randSeats 1 (bookings.getD pos.toNat (0, 0)).1
    let eId := (bookings.getD pos.toNat (0, 0)).2
    match enterTable canWrite 2 eId tId wake s with
    | none => none
    | some (none, s1) => some (-1, bookings, s1)
    | some (some tableEntry, s1) =>
      match lockSeat s1 with
      | none => none
      | some s2 =>
        let s3 : State :=
          { s2 with
            out := s2.out ++ [Msg.cancelOk tId eId numOfSeats],
            availableSeats :=
              s2.availableSeats.set eId.toNat (seatsAt s2.availableSeats eId + numOfSeats) }
        match exitTable tableEntry (unlockSeat s3) with
        | none => none
        | some s4 => some (1, bookings.eraseIdx pos.toNat, s4)

/-- Index `pos` drawn by `cancelEvent` at line 270. -/
def pickedPos (bookings : List (Int × Int)) (randPos : Nat) : Nat :=
  (getRandomNumberInRange randPos 0 ((bookings.length : Int) - 1)).toNat

/-- Booking `bookings[pos]` read by `cancelEvent` at lines 271-272. -/
def pickedBooking (bookings : List (Int × Int)) (randPos : Nat) : Int × Int :=
  bookings.getD (pickedPos bookings randPos) (0, 0)

/-- Number of seats `numOfSeats` drawn by `cancelEvent` at line 271. -/
def pickedSeats (bookings : List (Int × Int)) (randPos randSeats : Nat) : Int :=
  getRandomNumberInRange randSeats 1 (pickedBooking bookings randPos).1

/-! ## Worker threads (lines 103-145) -/

/-- Ledger and client records: the vector `availableSeats` and, for each
worker thread, its local vector `bookings` (line 110) of pairs
(seats booked, event). -/
structure Driver where
  availableSeats : List Int
  bookings : List (List (Int × Int))
deriving DecidableEq, Repr

/-- State at program start: full ledger, empty record for each worker thread. -/
def initDriver : Driver := ⟨initSeats, List.replicate numOfWorkerThreads []⟩

/-- One iteration of the loop of `workerThread` (lines 113-143) for the worker
number `worker`, without the `sleep` calls. The five `rand` parameters are the
values of `rand()` at lines 114, 115, 127, 270 and 271. The table `tbl` found
by the call and the table `wake` found at wake-up are the ones the other
threads have left; the operation starts with both mutexes free. -/
def workerThread (worker : Nat) (threadId : Int)
    (randType randEvent randSeats randPos randCancel : Nat)
    (tbl : List queryInfo) (wake : Option (List queryInfo)) (d : Driver) :
    Option Driver :=
  let queryType := getRandomNumberInRange randType 0 3
  let eventNum := getRandomNumberInRange randEvent 1 numOfEvents
  let s : State := ⟨tbl, d.availableSeats, false, false, []⟩
  if queryType = 0 then
    match inquireEvent eventNum threadId wake s with
    | none => none
    | some s2 => some { d with availableSeats := s2.availableSeats }
  else if queryType = 1 then
    let seatsToBook := getRandomNumberInRange randSeats minTickets maxTickets
    match bookEvent eventNum seatsToBook threadId wake s with
    | none => none
    | some (success, s2) =>
      some ⟨s2.availableSeats,
        if success = 1 then d.bookings.modify (fun r => r ++ [(seatsToBook, eventNum)]) worker
        else d.bookings⟩
  else if queryType = 2 then
    match cancelEvent threadId (d.bookings.getD worker []) randPos randCancel wake s with
    | none => none
    | some (_, bookings2, s2) => some ⟨s2.availableSeats, d.bookings.set worker bookings2⟩
  else some d

/-- States of the ledger and the records after a finite sequence of loop
iterations of the worker threads, from the start of the program. -/
inductive Reachable : Driver → Prop where
  | init : Reachable initDriver
  | iteration (d d2 : Driver) (worker : Nat) (threadId : Int)
      (randType randEvent randSeats randPos randCancel : Nat)
      (tbl : List queryInfo) (wake : Option (List queryInfo)) :
      Reachable d → worker < numOfWorkerThreads →
      workerThread worker threadId randType randEvent randSeats randPos randCancel
        tbl wake d = some d2 →
      Reachable d2

/-! ## Concurrent runs of the admission code

The sections of the three operations that run under `tableMutex` are atomic.
A concurrent run is a sequence of these sections, taken by any threads in any
order. -/

/-- Table state of a concurrent run: the table, the calls suspended in
`pthread_cond_wait` (each with the event id, query type and thread id it will
write), the calls that have been signalled and not yet run again, and
`tableMutex`, which stays held once a call has returned at line 166, 217 or
288. -/
structure Sys where
  sharedTable : List queryInfo
  waiting : List queryInfo
  woken : List queryInfo
  tableMutex : Bool
deriving DecidableEq, Repr

/-- Atomic sections of a concurrent run. -/
inductive Action where
  /-- A thread calls an operation and runs lines 154-174 (204-225, 275-296) up
  to the write of its slot, or up to `pthread_cond_wait`. -/
  | call (q : queryInfo)
  /-- The thread that owns slot `i` runs its release code (lines 189-194,
  247-252, 312-315); its signal wakes the suspended call number `w`, if any
  call is suspended. -/
  | release (i w : Nat)
  /-- The woken call number `n` holds `tableMutex` again and goes on from line
  165 (215, 286). -/
  | resume (n : Nat)
deriving DecidableEq, Repr

/-- Arguments an operation can receive from `workerThread`: an event id in
`1 .. numOfEvents` and the query type of the operation. -/
def validQuery (q : queryInfo) : Prop :=
  1 ≤ q.eventId ∧ q.eventId ≤ numOfEvents ∧ (q.qType = 0 ∨ q.qType = 1 ∨ q.qType = 2)

instance (q : queryInfo) : Decidable (validQuery q) := by
  unfold validQuery; infer_instance

/-- Negation of the test before `pthread_cond_wait`: `canRead` for an inquiry
(query type 0), `canWrite` for a book or a cancel. -/
def firstCheck (q : queryInfo) (sharedTable : List queryInfo) : Bool :=
  decide (findBlankEntry sharedTable ≠ -1) &&
    (if q.qType = 0 then canRead sharedTable q.eventId else canWrite sharedTable q.eventId)

/-- One atomic section; `none` when the section cannot run in this state. -/
def step (s : Sys) : Action → Option Sys
  | Action.call q =>
    if s.tableMutex = true ∨ ¬ validQuery q then none
    else if firstCheck q s.sharedTable = true then
      some { s with
        sharedTable := s.sharedTable.set (findBlankEntry s.sharedTable).toNat q }
    else some { s with waiting := s.waiting ++ [q] }
  | Action.release i w =>
    if s.tableMutex = true then none
    else
      match s.sharedTable[i]? with
      | none => none
      | some q =>
        if q.eventId = 0 then none
        else
          match s.waiting[w]? with
          | none =>
            if s.waiting = [] then
              some { s with sharedTable := clearSlot s.sharedTable (i : Int) }
            else none
          | some x =>
            some { s with
              sharedTable := clearSlot s.sharedTable (i : Int),
              waiting := s.waiting.eraseIdx w,
              woken := s.woken ++ [x] }
  | Action.resume n =>
    if s.tableMutex = true then none
    else
      match s.woken[n]? with
      | none => none
      | some q =>
        if findBlankEntry s.sharedTable = -1 then
          some { s with woken := s.woken.eraseIdx n, tableMutex := true }
        else
          some { s with
            sharedTable := s.sharedTable.set (findBlankEntry s.sharedTable).toNat q,
            woken := s.woken.eraseIdx n }

/-- Run of a sequence of atomic sections. -/
def run (s : Sys) : List Action → Option Sys
  | [] => some s
  | a :: rest =>
    match step s a with
    | none => none
    | some s2 => run s2 rest

/-- State at program start: empty table, no call suspended. -/
def initSys : Sys := ⟨initTable, [], [], false⟩

/-! ## Predicates of the properties -/

/-- Number of free slots of a table. -/
def freeSlots (sharedTable : List queryInfo) : Nat :=
  sharedTable.countP (fun q => decide (q.eventId = 0))

/-- Table seen by the second call of `findBlankEntry` (lines 165, 215, 286):
the table of the call when the first test passes, the table at wake-up when the
caller has waited, nothing when it waits for ever. -/
def admissionTable (can : List queryInfo → Int → Bool) (eId : Int)
    (wake : Option (List queryInfo)) (sharedTable : List queryInfo) :
    Option (List queryInfo) :=
  if findBlankEntry sharedTable = -1 ∨ can sharedTable eId = false then wake
  else some sharedTable

/-- Final state of an operation that was admitted into slot `findBlankEntry tbl`
of the table `tbl` and has released it. -/
def released (s : State) (tbl : List queryInfo) (qType tId : Int)
    (availableSeats : List Int) (msg : Msg) : State :=
  { sharedTable := tbl.set (findBlankEntry tbl).toNat ⟨0, qType, tId⟩,
    availableSeats := availableSeats,
    tableMutex := false,
    seatMutex := false,
    out := s.out ++ [msg] }

/-- Number of occupied WRITE slots (query type 1 or 2) on event `e`. -/
def writersOn (sharedTable : List queryInfo) (e : Int) : Nat :=
  sharedTable.countP (fun q => decide (q.eventId = e ∧ (q.qType = 1 ∨ q.qType = 2)))

/-- Number of occupied READ slots (query type 0) on event `e`. -/
def readersOn (sharedTable : List queryInfo) (e : Int) : Nat :=
  sharedTable.countP (fun q => decide (q.eventId = e ∧ q.qType = 0))

/-- Invariant I2: for every event, the occupied slots on it are all READ, or
they are exactly one WRITE. -/
def mutualExclusion (sharedTable : List queryInfo) : Prop :=
  ∀ e : Int, e ≠ 0 →
    writersOn sharedTable e = 0 ∨ (writersOn sharedTable e = 1 ∧ readersOn sharedTable e = 0)

/-- Query types of a table state: every slot holds 0, 1 or 2, and every
suspended or woken call is a valid query. -/
def KindInv (s : Sys) : Prop :=
  (∀ q ∈ s.sharedTable, q.qType = 0 ∨ q.qType = 1 ∨ q.qType = 2) ∧
  (∀ q ∈ s.waiting, validQuery q) ∧ (∀ q ∈ s.woken, validQuery q)

/-- Seats of event `e` held by the bookings of one record. -/
def bookedIn (e : Int) (r : List (Int × Int)) : Int :=
  ((r.filter (fun b => decide (b.2 = e))).map (fun b => b.1)).sum

/-- Seats of event `e` held by the bookings of all records. -/
def booked (e : Int) (bookings : List (List (Int × Int))) : Int :=
  (bookings.map (bookedIn e)).sum

/-- Invariant of the ledger and the records: the ledger has one counter per
event, every recorded booking has at least one seat on a valid event, and for
every event the free seats are not negative and, with the recorded seats, do
not exceed the capacity. -/
def SeatInv (d : Driver) : Prop :=
  d.availableSeats.length = numOfEvents + 1 ∧
  (∀ r ∈ d.bookings, ∀ b ∈ r, 1 ≤ b.1 ∧ 1 ≤ b.2 ∧ b.2 ≤ numOfEvents) ∧
  ∀ e : Int, 1 ≤ e → e ≤ numOfEvents →
    0 ≤ seatsAt d.availableSeats e ∧
    seatsAt d.availableSeats e + booked e d.bookings ≤ capacityOfAuditorium

/-! ## States of the scenarios -/

/-- Table with a BOOK on event 1 in slot 0 and an INQUIRE on event 2 in slot 1;
slot 2 is free and keeps the query type of a finished CANCEL. -/
def sampleTable : List queryInfo :=
  [⟨1, 1, 4⟩, ⟨2, 0, 6⟩, ⟨0, 2, 8⟩, ⟨0, 0, 0⟩, ⟨0, 0, 0⟩]

/-- Ledger of the scenario of the specification: 10 seats for every event. -/
def scenarioSeats : List Int := List.replicate (numOfEvents + 1) 10

/-- Start of the scenario: empty table, 10 seats for every event. -/
def scenarioStart : State := ⟨initTable, scenarioSeats, false, false, []⟩

/-- State of the scenario after client 0 has booked 7 seats of event 1. -/
def scenarioBooked : State :=
  ⟨[⟨0, 1, 0⟩, ⟨0, 0, 0⟩, ⟨0, 0, 0⟩, ⟨0, 0, 0⟩, ⟨0, 0, 0⟩], scenarioSeats.set 1 3,
    false, false, [Msg.bookOk 0 1 7]⟩

/-- State of the scenario after client 0 has booked 7 seats of event 1 and
cancelled them all. -/
def scenarioCancelled : State :=
  ⟨[⟨0, 2, 0⟩, ⟨0, 0, 0⟩, ⟨0, 0, 0⟩, ⟨0, 0, 0⟩, ⟨0, 0, 0⟩],
    (scenarioSeats.set 1 3).set 1 10, false, false,
    [Msg.bookOk 0 1 7, Msg.cancelOk 0 1 7]⟩

/-- Ledger in which 3 seats of event 1 are left. -/
def lowSeats : List Int := initSeats.set 1 3

/-- Table with five inquiries in flight, on events 1 to 5. -/
def fullTable : List queryInfo :=
  [⟨1, 0, 1⟩, ⟨2, 0, 2⟩, ⟨3, 0, 3⟩, ⟨4, 0, 4⟩, ⟨5, 0, 5⟩]

/-- Table `fullTable` after thread 1 has released slot 0 and signalled, and
thread 6 has taken slot 0 for an inquiry on event 7 before the woken thread
runs. -/
def fullTableAtWake : List queryInfo :=
  [⟨7, 0, 6⟩, ⟨2, 0, 2⟩, ⟨3, 0, 3⟩, ⟨4, 0, 4⟩, ⟨5, 0, 5⟩]

/-- Ledger and records after worker 0 has booked 7 seats of event 1 in its
first loop iteration. -/
def bookedOnce : Driver :=
  ⟨initSeats.set 1 493, (List.replicate numOfWorkerThreads []).set 0 [(7, 1)]⟩

/-! ## Lemmas on lists -/

theorem sum_map_set {α : Type} (f : α → Int) (l : List α) (w : Nat) (x y : α)
    (h : l[w]? = some y) :
    ((l.set w x).map f).sum = (l.map f).sum - f y + f x := by
  induction l generalizing w with
  | nil => simp at h
  | cons a rest ih =>
    cases w with
    | zero =>
      simp only [List.getElem?_cons_zero, Option.some.injEq] at h
      subst h
      simp only [List.set_cons_zero, List.map_cons, List.sum_cons]
      omega
    | succ w =>
      simp only [List.getElem?_cons_succ] at h
      simp only [List.set_cons_succ, List.map_cons, List.sum_cons, ih w h]
      omega

theorem modify_of_getElem? {α : Type} (f : α → α) (l : List α) (w : Nat) (y : α)
    (h : l[w]? = some y) : l.modify f w = l.set w (f y) := by
  apply List.ext_getElem?
  intro j
  by_cases hj : w = j
  · subst hj
    have hlt : w < l.length := by
      rcases Nat.lt_or_ge w l.length with hl | hl
      · exact hl
      · rw [List.getElem?_eq_none hl] at h; cases h
    rw [List.getElem?_modify_eq, h, List.getElem?_set_self hlt]
    rfl
  · simp [List.getElem?_modify_ne, List.getElem?_set_ne, hj]

theorem modify_of_none {α : Type} (f : α → α) (l : List α) (w : Nat)
    (h : l[w]? = none) : l.modify f w = l := by
  apply List.ext_getElem?
  intro j
  by_cases hj : w = j
  · subst hj
    simp [List.getElem?_modify_eq, h]
  · simp [List.getElem?_modify_ne, hj]

theorem set_getD_self {α : Type} (l : List α) (w : Nat) (dflt : α) :
    l.set w (l.getD w dflt) = l := by
  apply List.ext_getElem?
  intro j
  by_cases hj : w = j
  · subst hj
    rcases Nat.lt_or_ge w l.length with hl | hl
    · simp [List.getElem?_set_self hl, List.getElem?_eq_getElem hl]
    · rw [List.getElem?_eq_none (by simpa using hl), List.getElem?_eq_none hl]
  · simp [List.getElem?_set_ne hj]

theorem countP_set (p : queryInfo → Bool) (l : List queryInfo) (i : Nat)
    (x y : queryInfo) (h : l[i]? = some y) :
    (l.set i x).countP p + (if p y = true then 1 else 0)
      = l.countP p + (if p x = true then 1 else 0) := by
  induction l generalizing i with
  | nil => simp at h
  | cons a rest ih =>
    cases i with
    | zero =>
      simp only [List.getElem?_cons_zero, Option.some.injEq] at h
      subst h
      simp only [List.set_cons_zero, List.countP_cons]
      omega
    | succ i =>
      simp only [List.getElem?_cons_succ] at h
      have := ih i h
      simp only [List.set_cons_succ, List.countP_cons]
      omega

/-! ## Lemmas on the table predicates -/

theorem findBlankEntryFrom_eq_neg_one (l : List queryInfo) (i : Nat) :
    findBlankEntryFrom l i = -1 ↔ ∀ q ∈ l, q.eventId ≠ 0 := by
  induction l generalizing i with
  | nil => simp [findBlankEntryFrom]
  | cons q rest ih =>
    by_cases hq : q.eventId = 0
    · simp only [findBlankEntryFrom, hq, if_true]
      constructor
      · intro h; omega
      · intro h; exact absurd hq (h q (List.mem_cons_self _ _))
    · simp [findBlankEntryFrom, hq, ih]

theorem findBlankEntryFrom_first (l : List queryInfo) (i : Nat)
    (h : findBlankEntryFrom l i ≠ -1) :
    ∃ n : Nat, findBlankEntryFrom l i = ((i + n : Nat) : Int) ∧ n < l.length ∧
      (∃ q, l[n]? = some q ∧ q.eventId = 0) ∧
      ∀ j, j < n → ∀ q, l[j]? = some q → q.eventId ≠ 0 := by
  induction l generalizing i with
  | nil => simp [findBlankEntryFrom] at h
  | cons q rest ih =>
    by_cases hq : q.eventId = 0
    · refine ⟨0, ?_, by simp, ⟨q, by simp, hq⟩, ?_⟩
      · simp [findBlankEntryFrom, hq]
      · intro j hj; omega
    · have h2 : findBlankEntryFrom rest (i + 1) ≠ -1 := by
        simpa [findBlankEntryFrom, hq] using h
      obtain ⟨n, hn, hlt, ⟨q0, hq0, hz⟩, hmin⟩ := ih (i + 1) h2
      refine ⟨n + 1, ?_, by simp; omega, ⟨q0, by simpa using hq0, hz⟩, ?_⟩
      · simp only [findBlankEntryFrom, hq, if_false, hn]
        push_cast; omega
      · intro j hj q1 hq1
        cases j with
        | zero =>
          simp at hq1
          subst hq1; exact hq
        | succ j =>
          simp at hq1
          exact hmin j (by omega) q1 hq1

theorem findBlankEntry_eq_neg_one (tbl : List queryInfo) :
    findBlankEntry tbl = -1 ↔ ∀ q ∈ tbl, q.eventId ≠ 0 :=
  findBlankEntryFrom_eq_neg_one tbl 0

theorem findBlankEntry_ne_neg_one (tbl : List queryInfo) :
    findBlankEntry tbl ≠ -1 ↔ ∃ q ∈ tbl, q.eventId = 0 := by
  rw [Ne, findBlankEntry_eq_neg_one]
  push_neg
  rfl

theorem findBlankEntry_first (tbl : List queryInfo) (h : findBlankEntry tbl ≠ -1) :
    ∃ n : Nat, findBlankEntry tbl = (n : Int) ∧ n < tbl.length ∧
      (∃ q, tbl[n]? = some q ∧ q.eventId = 0) ∧
      ∀ j, j < n → ∀ q, tbl[j]? = some q → q.eventId ≠ 0 := by
  obtain ⟨n, hn, hrest⟩ := findBlankEntryFrom_first tbl 0 h
  exact ⟨n, by simpa [findBlankEntry] using hn, hrest⟩

theorem canWrite_iff (tbl : List queryInfo) (e : Int) :
    canWrite tbl e = true ↔ ∀ q ∈ tbl, q.eventId ≠ e := by
  induction tbl with
  | nil => simp [canWrite]
  | cons q rest ih =>
    by_cases hq : q.eventId = e
    · simp [canWrite, hq]
    · simp [canWrite, hq, ih]

theorem canRead_iff (tbl : List queryInfo) (e : Int) :
    canRead tbl e = true ↔ ∀ q ∈ tbl, q.eventId = e → q.qType = 0 := by
  induction tbl with
  | nil => simp [canRead]
  | cons q rest ih =>
    by_cases hq : q.eventId = e ∧ q.qType ≠ 0
    · rw [canRead, if_pos hq]
      constructor
      · intro h; exact absurd h (by decide)
      · intro h
        exact absurd (h q (List.mem_cons_self _ _) hq.1) hq.2
    · rw [canRead, if_neg hq, ih]
      simp only [List.mem_cons, forall_eq_or_imp]
      constructor
      · intro h
        refine ⟨fun he => ?_, h⟩
        by_contra hne
        exact hq ⟨he, hne⟩
      · intro h; exact h.2

/-! ## Lemmas on admission and release -/

theorem enterTable_blocked (can : List queryInfo → Int → Bool) (qType eId tId : Int)
    (wake : Option (List queryInfo)) (s : State) (hm : s.tableMutex = false)
    (h : admissionTable can eId wake s.sharedTable = none) :
    enterTable can qType eId tId wake s = none := by
  unfold admissionTable at h
  unfold enterTable lockTable
  simp only [hm, Bool.false_eq_true, if_false]
  by_cases hc : findBlankEntry s.sharedTable = -1 ∨ can s.sharedTable eId = false
  · rw [if_pos hc] at h
    rw [if_pos hc, h]
    rfl
  · rw [if_neg hc] at h
    exact absurd h (by simp)

theorem enterTable_full (can : List queryInfo → Int → Bool) (qType eId tId : Int)
    (wake : Option (List queryInfo)) (s : State) (tbl : List queryInfo)
    (hm : s.tableMutex = false)
    (h : admissionTable can eId wake s.sharedTable = some tbl)
    (hfull : findBlankEntry tbl = -1) :
    enterTable can qType eId tId wake s =
      some (none, { s with sharedTable := tbl, tableMutex := true }) := by
  unfold admissionTable at h
  unfold enterTable lockTable
  simp only [hm, Bool.false_eq_true, if_false]
  by_cases hc : findBlankEntry s.sharedTable = -1 ∨ can s.sharedTable eId = false
  · rw [if_pos hc] at h
    rw [if_pos hc, h]
    simp only [condWait, hfull, if_true]
  · rw [if_neg hc] at h
    rw [if_neg hc]
    simp only [Option.some.injEq] at h
    subst h
    simp only [hfull, if_true]

theorem enterTable_admitted (can : List queryInfo → Int → Bool) (qType eId tId : Int)
    (wake : Option (List queryInfo)) (s : State) (tbl : List queryInfo)
    (hm : s.tableMutex = false)
    (h : admissionTable can eId wake s.sharedTable = some tbl)
    (hfree : findBlankEntry tbl ≠ -1) :
    enterTable can qType eId tId wake s =
      some (some (findBlankEntry tbl),
        { s with
          sharedTable := tbl.set (findBlankEntry tbl).toNat ⟨eId, qType, tId⟩,
          tableMutex := false }) := by
  unfold admissionTable at h
  unfold enterTable lockTable
  simp only [hm, Bool.false_eq_true, if_false]
  by_cases hc : findBlankEntry s.sharedTable = -1 ∨ can s.sharedTable eId = false
  · rw [if_pos hc] at h
    rw [if_pos hc, h]
    simp only [condWait, hfree, if_false, unlockTable]
  · rw [if_neg hc] at h
    rw [if_neg hc]
    simp only [Option.some.injEq] at h
    subst h
    simp only [hfree, if_false, unlockTable]

theorem findBlankEntry_toNat_lt (tbl : List queryInfo) (h : findBlankEntry tbl ≠ -1) :
    (findBlankEntry tbl).toNat < tbl.length := by
  obtain ⟨n, hn, hlt, _⟩ := findBlankEntry_first tbl h
  rw [hn]
  simpa using hlt

theorem clearSlot_set (tbl : List queryInfo) (x : Int) (q : queryInfo)
    (h : x.toNat < tbl.length) :
    clearSlot (tbl.set x.toNat q) x = tbl.set x.toNat ⟨0, q.qType, q.threadId⟩ := by
  unfold clearSlot
  apply List.ext_getElem?
  intro j
  by_cases hj : x.toNat = j
  · subst hj
    simp [List.getElem?_modify_eq, List.getElem?_set_self, h]
  · simp [List.getElem?_modify_ne, List.getElem?_set_ne, hj]

theorem bookEvent_blocked (eId k tId : Int) (wake : Option (List queryInfo)) (s : State)
    (hm : s.tableMutex = false)
    (h : admissionTable canWrite eId wake s.sharedTable = none) :
    bookEvent eId k tId wake s = none := by
  simp only [bookEvent, enterTable_blocked canWrite 1 eId tId wake s hm h]

theorem bookEvent_full (eId k tId : Int) (wake : Option (List queryInfo)) (s : State)
    (tbl : List queryInfo) (hm : s.tableMutex = false)
    (h : admissionTable canWrite eId wake s.sharedTable = some tbl)
    (hfull : findBlankEntry tbl = -1) :
    bookEvent eId k tId wake s =
      some (-1, { s with sharedTable := tbl, tableMutex := true }) := by
  simp only [bookEvent, enterTable_full canWrite 1 eId tId wake s tbl hm h hfull]

theorem bookEvent_insufficient (eId k tId : Int) (wake : Option (List queryInfo))
    (s : State) (tbl : List queryInfo) (hm : s.tableMutex = false)
    (hs : s.seatMutex = false)
    (h : admissionTable canWrite eId wake s.sharedTable = some tbl)
    (hfree : findBlankEntry tbl ≠ -1) (hk : k > seatsAt s.availableSeats eId) :
    bookEvent eId k tId wake s =
      some (-1, { s with
        sharedTable := tbl.set (findBlankEntry tbl).toNat ⟨eId, 1, tId⟩,
        tableMutex := false,
        seatMutex := false,
        out := s.out ++ [Msg.bookFail tId eId k] }) := by
  simp only [bookEvent, enterTable_admitted canWrite 1 eId tId wake s tbl hm h hfree,
    lockSeat, hs, Bool.false_eq_true, if_false, hk, if_true, unlockSeat]

theorem bookEvent_booked (eId k tId : Int) (wake : Option (List queryInfo))
    (s : State) (tbl : List queryInfo) (hm : s.tableMutex = false)
    (hs : s.seatMutex = false)
    (h : admissionTable canWrite eId wake s.sharedTable = some tbl)
    (hfree : findBlankEntry tbl ≠ -1) (hk : ¬ k > seatsAt s.availableSeats eId) :
    bookEvent eId k tId wake s =
      some (1, released s tbl 1 tId
        (s.availableSeats.set eId.toNat (seatsAt s.availableSeats eId - k))
        (Msg.bookOk tId eId k)) := by
  simp only [bookEvent, enterTable_admitted canWrite 1 eId tId wake s tbl hm h hfree,
    lockSeat, hs, Bool.false_eq_true, if_false, hk, unlockSeat, exitTable, lockTable,
    unlockTable, clearSlot_set tbl _ _ (findBlankEntry_toNat_lt tbl hfree), released]

theorem inquireEvent_blocked (eId tId : Int) (wake : Option (List queryInfo)) (s : State)
    (hm : s.tableMutex = false)
    (h : admissionTable canRead eId wake s.sharedTable = none) :
    inquireEvent eId tId wake s = none := by
  simp only [inquireEvent, enterTable_blocked canRead 0 eId tId wake s hm h]

theorem inquireEvent_full (eId tId : Int) (wake : Option (List queryInfo)) (s : State)
    (tbl : List queryInfo) (hm : s.tableMutex = false)
    (h : admissionTable canRead eId wake s.sharedTable = some tbl)
    (hfull : findBlankEntry tbl = -1) :
    inquireEvent eId tId wake s =
      some { s with sharedTable := tbl, tableMutex := true } := by
  simp only [inquireEvent, enterTable_full canRead 0 eId tId wake s tbl hm h hfull]

theorem inquireEvent_done (eId tId : Int) (wake : Option (List queryInfo))
    (s : State) (tbl : List queryInfo) (hm : s.tableMutex = false)
    (hs : s.seatMutex = false)
    (h : admissionTable canRead eId wake s.sharedTable = some tbl)
    (hfree : findBlankEntry tbl ≠ -1) :
    inquireEvent eId tId wake s =
      some (released s tbl 0 tId s.availableSeats
        (if seatsAt s.availableSeats eId = 0 then Msg.inquireFull tId eId
         else Msg.inquireSeats tId eId (seatsAt s.availableSeats eId))) := by
  simp only [inquireEvent, enterTable_admitted canRead 0 eId tId wake s tbl hm h hfree,
    lockSeat, hs, Bool.false_eq_true, if_false]
  split_ifs <;>
  simp only [unlockSeat, exitTable, lockTable, Bool.false_eq_true, if_false,
    unlockTable, clearSlot_set tbl _ _ (findBlankEntry_toNat_lt tbl hfree), released]

theorem cancelEvent_empty (tId : Int) (randPos randSeats : Nat)
    (wake : Option (List queryInfo)) (s : State) :
    cancelEvent tId [] randPos randSeats wake s =
      some (-1, [], { s with out := s.out ++ [Msg.cancelNone tId] }) := by
  simp [cancelEvent]

theorem length_not_lt_one (bookings : List (Int × Int)) (hne : bookings ≠ []) :
    ¬ ((bookings.length : Int) < 1) := by
  have : 0 < bookings.length := List.length_pos.mpr hne
  omega

theorem cancelEvent_blocked (tId : Int) (bookings : List (Int × Int))
    (randPos randSeats : Nat) (wake : Option (List queryInfo)) (s : State)
    (hne : bookings ≠ []) (hm : s.tableMutex = false)
    (h : admissionTable canWrite (pickedBooking bookings randPos).2 wake s.sharedTable
      = none) :
    cancelEvent tId bookings randPos randSeats wake s = none := by
  unfold pickedBooking pickedPos at h
  simp only [cancelEvent, length_not_lt_one bookings hne, if_false,
    enterTable_blocked canWrite 2 _ tId wake s hm h]

theorem cancelEvent_full (tId : Int) (bookings : List (Int × Int))
    (randPos randSeats : Nat) (wake : Option (List queryInfo)) (s : State)
    (tbl : List queryInfo) (hne : bookings ≠ []) (hm : s.tableMutex = false)
    (h : admissionTable canWrite (pickedBooking bookings randPos).2 wake s.sharedTable
      = some tbl)
    (hfull : findBlankEntry tbl = -1) :
    cancelEvent tId bookings randPos randSeats wake s =
      some (-1, bookings, { s with sharedTable := tbl, tableMutex := true }) := by
  unfold pickedBooking pickedPos at h
  simp only [cancelEvent, length_not_lt_one bookings hne, if_false,
    enterTable_full canWrite 2 _ tId wake s tbl hm h hfull]

theorem cancelEvent_done (tId : Int) (bookings : List (Int × Int))
    (randPos randSeats : Nat) (wake : Option (List queryInfo)) (s : State)
    (tbl : List queryInfo) (hne : bookings ≠ []) (hm : s.tableMutex = false)
    (hs : s.seatMutex = false)
    (h : admissionTable canWrite (pickedBooking bookings randPos).2 wake s.sharedTable
      = some tbl)
    (hfree : findBlankEntry tbl ≠ -1) :
    cancelEvent tId bookings randPos randSeats wake s =
      some (1, bookings.eraseIdx (pickedPos bookings randPos),
        released s tbl 2 tId
          (s.availableSeats.set (pickedBooking bookings randPos).2.toNat
            (seatsAt s.availableSeats (pickedBooking bookings randPos).2
              + pickedSeats bookings randPos randSeats))
          (Msg.cancelOk tId (pickedBooking bookings randPos).2
            (pickedSeats bookings randPos randSeats))) := by
  unfold pickedSeats
  unfold pickedBooking pickedPos at h ⊢
  simp only [cancelEvent, length_not_lt_one bookings hne, if_false,
    enterTable_admitted canWrite 2 _ tId wake s tbl hm h hfree,
    lockSeat, hs, Bool.false_eq_true, unlockSeat, exitTable, lockTable,
    unlockTable, clearSlot_set tbl _ _ (findBlankEntry_toNat_lt tbl hfree), released]

/-! ## Admission predicates and first free slot -/

/-- Claim C8. The WRITE check made by `bookEvent` and `cancelEvent` before
waiting, `findBlankEntry() != -1` and `canWrite(e)`, holds exactly when some
slot is empty (`eventId = 0`) and no occupied slot of any kind has event id
`e`; the check gives the same answer on any two tables that agree on the event
ids of their slots, whatever `qType` and `threadId` they hold; and a
`bookEvent` that is never woken returns exactly when the check holds. -/
theorem write_admission_predicate (tbl : List queryInfo) (e : Int) (he : e ≠ 0) :
    ((findBlankEntry tbl ≠ -1 ∧ canWrite tbl e = true) ↔
      ((∃ q ∈ tbl, q.eventId = 0) ∧ ∀ q ∈ tbl, q.eventId ≠ 0 → q.eventId ≠ e)) ∧
    (∀ tbl2 : List queryInfo,
      tbl2.map (fun q => q.eventId) = tbl.map (fun q => q.eventId) →
      ((findBlankEntry tbl2 ≠ -1 ∧ canWrite tbl2 e = true) ↔
        (findBlankEntry tbl ≠ -1 ∧ canWrite tbl e = true))) ∧
    (∀ (k tId : Int) (seats : List Int) (out : List Msg),
      ((bookEvent e k tId none ⟨tbl, seats, false, false, out⟩).isSome = true ↔
        (findBlankEntry tbl ≠ -1 ∧ canWrite tbl e = true))) := by
  have key : ∀ t : List queryInfo, (findBlankEntry t ≠ -1 ∧ canWrite t e = true) ↔
      ((∃ x ∈ t.map (fun q => q.eventId), x = 0) ∧
        ∀ x ∈ t.map (fun q => q.eventId), x ≠ e) := by
    intro t
    rw [findBlankEntry_ne_neg_one, canWrite_iff]
    simp
  refine ⟨?_, ?_, ?_⟩
  · rw [findBlankEntry_ne_neg_one, canWrite_iff]
    constructor
    · rintro ⟨h1, h2⟩
      exact ⟨h1, fun q hq _ => h2 q hq⟩
    · rintro ⟨h1, h2⟩
      refine ⟨h1, fun q hq => ?_⟩
      by_cases h0 : q.eventId = 0
      · rw [h0]; exact fun h => he h.symm
      · exact h2 q hq h0
  · intro tbl2 hmap
    rw [key tbl2, key tbl, hmap]
  · intro k tId seats out
    by_cases hp : findBlankEntry tbl ≠ -1 ∧ canWrite tbl e = true
    · have hadm : admissionTable canWrite e none
          (State.mk tbl seats false false out).sharedTable = some tbl := by
        unfold admissionTable
        rw [if_neg]
        rintro (h | h)
        · exact hp.1 h
        · rw [hp.2] at h; exact absurd h (by decide)
      simp only [hp, ne_eq, not_false_eq_true, and_self, iff_true]
      by_cases hk : k > seatsAt seats e
      · rw [bookEvent_insufficient e k tId none _ tbl rfl rfl hadm hp.1 hk]
        rfl
      · rw [bookEvent_booked e k tId none _ tbl rfl rfl hadm hp.1 hk]
        rfl
    · have hadm : admissionTable canWrite e none
          (State.mk tbl seats false false out).sharedTable = none := by
        unfold admissionTable
        rw [if_pos]
        by_contra hc
        push_neg at hc
        exact hp ⟨hc.1, by simpa using hc.2⟩
      rw [bookEvent_blocked e k tId none _ rfl hadm]
      simp only [Option.isSome_none, Bool.false_eq_true, false_iff]
      exact hp

/-- Witness of C8: the empty table admits a BOOK on event 7. -/
theorem write_admission_predicate_witness :
    (7 : Int) ≠ 0 ∧
    ((findBlankEntry initTable ≠ -1 ∧ canWrite initTable 7 = true) ↔
      ((∃ q ∈ initTable, q.eventId = 0) ∧
        ∀ q ∈ initTable, q.eventId ≠ 0 → q.eventId ≠ 7)) :=
  ⟨by decide, (write_admission_predicate initTable 7 (by decide)).1⟩

/-- Claim C9. For a table whose occupied slots hold the query types 0, 1 or 2,
the READ check made by `inquireEvent` before waiting, `findBlankEntry() != -1`
and `canRead(e)`, holds exactly when some slot is empty (`eventId = 0`) and no
occupied slot with event id `e` has a WRITE kind (`qType` 1 or 2): READ slots
on `e`, slots on other events and the stale `qType` of empty slots do not
enter the condition. An `inquireEvent` that is never woken returns exactly
when the check holds. -/
theorem read_admission_predicate (tbl : List queryInfo) (e : Int) (he : e ≠ 0)
    (hkind : ∀ q ∈ tbl, q.eventId ≠ 0 → q.qType = 0 ∨ q.qType = 1 ∨ q.qType = 2) :
    ((findBlankEntry tbl ≠ -1 ∧ canRead tbl e = true) ↔
      ((∃ q ∈ tbl, q.eventId = 0) ∧
        ∀ q ∈ tbl, q.eventId ≠ 0 → q.eventId = e → ¬ (q.qType = 1 ∨ q.qType = 2))) ∧
    (∀ (tId : Int) (seats : List Int) (out : List Msg),
      ((inquireEvent e tId none ⟨tbl, seats, false, false, out⟩).isSome = true ↔
        (findBlankEntry tbl ≠ -1 ∧ canRead tbl e = true))) := by
  refine ⟨?_, ?_⟩
  · rw [findBlankEntry_ne_neg_one, canRead_iff]
    constructor
    · rintro ⟨h1, h2⟩
      refine ⟨h1, fun q hq _ hqe hw => ?_⟩
      have h0 := h2 q hq hqe
      omega
    · rintro ⟨h1, h2⟩
      refine ⟨h1, fun q hq hqe => ?_⟩
      have hocc : q.eventId ≠ 0 := by rw [hqe]; exact he
      have hw := h2 q hq hocc hqe
      rcases hkind q hq hocc with h | h | h
      · exact h
      · exact absurd (Or.inl h) hw
      · exact absurd (Or.inr h) hw
  · intro tId seats out
    by_cases hp : findBlankEntry tbl ≠ -1 ∧ canRead tbl e = true
    · have hadm : admissionTable canRead e none
          (State.mk tbl seats false false out).sharedTable = some tbl := by
        unfold admissionTable
        rw [if_neg]
        rintro (h | h)
        · exact hp.1 h
        · rw [hp.2] at h; exact absurd h (by decide)
      simp only [hp, ne_eq, not_false_eq_true, and_self, iff_true]
      rw [inquireEvent_done e tId none _ tbl rfl rfl hadm hp.1]
      rfl
    · have hadm : admissionTable canRead e none
          (State.mk tbl seats false false out).sharedTable = none := by
        unfold admissionTable
        rw [if_pos]
        by_contra hc
        push_neg at hc
        exact hp ⟨hc.1, by simpa using hc.2⟩
      rw [inquireEvent_blocked e tId none _ rfl hadm]
      simp only [Option.isSome_none, Bool.false_eq_true, false_iff]
      exact hp

/-- Witness of C9 on `sampleTable` and event 2, which has a reader and no
writer. -/
theorem read_admission_predicate_witness :
    (2 : Int) ≠ 0 ∧
    (∀ q ∈ sampleTable, q.eventId ≠ 0 → q.qType = 0 ∨ q.qType = 1 ∨ q.qType = 2) ∧
    ((findBlankEntry sampleTable ≠ -1 ∧ canRead sampleTable 2 = true) ↔
      ((∃ q ∈ sampleTable, q.eventId = 0) ∧
        ∀ q ∈ sampleTable, q.eventId ≠ 0 → q.eventId = 2 →
          ¬ (q.qType = 1 ∨ q.qType = 2))) :=
  ⟨by decide, by decide,
    (read_admission_predicate sampleTable 2 (by decide) (by decide)).1⟩

/-- Claim C10. On a table of `maxActiveQueries` slots, `findBlankEntry` returns
-1 exactly when no slot has `eventId = 0`; otherwise it returns the least index
`i` below `maxActiveQueries` whose slot has `eventId = 0`. When this table is
the one an operation is admitted on, the admission code writes
`{eId, qType, tId}` into slot `i` and leaves every other slot as it was. -/
theorem findBlankEntry_first_free_slot (tbl : List queryInfo)
    (hlen : tbl.length = maxActiveQueries) :
    (findBlankEntry tbl = -1 ↔ ∀ q ∈ tbl, q.eventId ≠ 0) ∧
    (findBlankEntry tbl ≠ -1 →
      ∃ i : Nat, findBlankEntry tbl = (i : Int) ∧ i < maxActiveQueries ∧
        (∃ q, tbl[i]? = some q ∧ q.eventId = 0) ∧
        (∀ j, j < i → ∀ q, tbl[j]? = some q → q.eventId ≠ 0) ∧
        ∀ (can : List queryInfo → Int → Bool) (qType eId tId : Int)
          (wake : Option (List queryInfo)) (s : State),
          s.tableMutex = false →
          admissionTable can eId wake s.sharedTable = some tbl →
          ∃ s2 : State,
            enterTable can qType eId tId wake s = some (some (i : Int), s2) ∧
            s2.sharedTable.length = maxActiveQueries ∧
            s2.sharedTable[i]? = some ⟨eId, qType, tId⟩ ∧
            ∀ j, j ≠ i → s2.sharedTable[j]? = tbl[j]?) := by
  refine ⟨findBlankEntry_eq_neg_one tbl, fun hfree => ?_⟩
  obtain ⟨i, hi, hlt, hz, hmin⟩ := findBlankEntry_first tbl hfree
  refine ⟨i, hi, hlen ▸ hlt, hz, hmin, ?_⟩
  intro can qType eId tId wake s hm hadm
  refine ⟨{ s with sharedTable := tbl.set i ⟨eId, qType, tId⟩, tableMutex := false },
    ?_, ?_, ?_, ?_⟩
  · rw [enterTable_admitted can qType eId tId wake s tbl hm hadm hfree, hi]
    rfl
  · simp [hlen]
  · simp [hlt]
  · intro j hj
    exact List.getElem?_set_ne (Ne.symm hj)

/-- Witness of C10 on `sampleTable`, whose first free slot is slot 2. -/
theorem findBlankEntry_first_free_slot_witness :
    sampleTable.length = maxActiveQueries ∧
    (findBlankEntry sampleTable = -1 ↔ ∀ q ∈ sampleTable, q.eventId ≠ 0) ∧
    findBlankEntry sampleTable = 2 :=
  ⟨by decide, (findBlankEntry_first_free_slot sampleTable (by decide)).1, by decide⟩

/-! ## Seat ledger -/

theorem seatsAt_set_self (seats : List Int) (e v : Int) (h : e.toNat < seats.length) :
    seatsAt (seats.set e.toNat v) e = v := by
  simp [seatsAt, h]

theorem seatsAt_set_other (seats : List Int) (e e2 v : Int)
    (h : e2.toNat ≠ e.toNat) :
    seatsAt (seats.set e.toNat v) e2 = seatsAt seats e2 := by
  simp [seatsAt, List.getElem?_set_ne (Ne.symm h)]

theorem toNat_ne_of_valid (e e2 : Int) (he : 1 ≤ e) (h : e2 ≠ e) : e2.toNat ≠ e.toNat := by
  omega

/-- Claim C3. Once `bookEvent(e, k, t)` is admitted (the table `tbl` seen by
the second `findBlankEntry` call has a free slot), on every ledger and for
every seat count `k`: if `k > availableSeats[e]` the call returns -1 and the
whole vector `availableSeats` is unchanged; otherwise it returns 1,
`availableSeats[e]` is its old value minus `k` and the count of every other
event is unchanged. -/
theorem bookEvent_ledger_rule (eId k tId : Int) (wake : Option (List queryInfo))
    (s : State) (tbl : List queryInfo)
    (hm : s.tableMutex = false) (hs : s.seatMutex = false)
    (hadm : admissionTable canWrite eId wake s.sharedTable = some tbl)
    (hfree : findBlankEntry tbl ≠ -1)
    (he1 : 1 ≤ eId) (he2 : eId ≤ numOfEvents)
    (hlen : s.availableSeats.length = numOfEvents + 1) :
    (k > seatsAt s.availableSeats eId →
      ∃ s2, bookEvent eId k tId wake s = some (-1, s2) ∧
        s2.availableSeats = s.availableSeats) ∧
    (k ≤ seatsAt s.availableSeats eId →
      ∃ s2, bookEvent eId k tId wake s = some (1, s2) ∧
        seatsAt s2.availableSeats eId = seatsAt s.availableSeats eId - k ∧
        ∀ e2, e2 ≠ eId → seatsAt s2.availableSeats e2 = seatsAt s.availableSeats e2) := by
  have hidx : eId.toNat < s.availableSeats.length := by
    rw [hlen]; omega
  constructor
  · intro hk
    exact ⟨_, bookEvent_insufficient eId k tId wake s tbl hm hs hadm hfree hk, rfl⟩
  · intro hk
    refine ⟨_, bookEvent_booked eId k tId wake s tbl hm hs hadm hfree (by omega), ?_, ?_⟩
    · exact seatsAt_set_self _ _ _ hidx
    · intro e2 h2
      exact seatsAt_set_other _ _ _ _ (toNat_ne_of_valid eId e2 he1 h2)

/-- Witness of C3, the scenario of the specification: with 10 seats, booking 7
succeeds and leaves 3; booking 5 then fails and leaves 3. -/
theorem bookEvent_ledger_rule_witness :
    bookEvent 1 7 0 none scenarioStart = some (1, scenarioBooked) ∧
    seatsAt scenarioBooked.availableSeats 1 = 3 ∧
    (∃ s2, bookEvent 1 5 1 none scenarioBooked = some (-1, s2) ∧
      s2.availableSeats = scenarioBooked.availableSeats) ∧
    (∃ s2, bookEvent 1 7 0 none scenarioStart = some (1, s2) ∧
      seatsAt s2.availableSeats 1 = seatsAt scenarioStart.availableSeats 1 - 7 ∧
      ∀ e2, e2 ≠ 1 → seatsAt s2.availableSeats e2 = seatsAt scenarioStart.availableSeats e2) :=
  ⟨by rfl, by rfl,
    (bookEvent_ledger_rule 1 5 1 none scenarioBooked scenarioBooked.sharedTable
      rfl rfl (by rfl) (by decide) (by decide) (by decide) (by rfl)).1 (by decide),
    (bookEvent_ledger_rule 1 7 0 none scenarioStart initTable
      rfl rfl (by rfl) (by decide) (by decide) (by decide) (by rfl)).2 (by decide)⟩

theorem getRandomNumberInRange_bounds (rand : Nat) (m n : Int) (h : m ≤ n) :
    m ≤ getRandomNumberInRange rand m n ∧ getRandomNumberInRange rand m n ≤ n := by
  unfold getRandomNumberInRange
  have h1 := Int.tmod_nonneg (n - m + 1) (Int.ofNat_nonneg rand)
  have h2 := Int.tmod_lt_of_pos (rand : Int) (by omega : 0 < n - m + 1)
  constructor <;> omega

theorem mem_set_self_of_lt (tbl : List queryInfo) (i : Nat) (q : queryInfo)
    (h : i < tbl.length) : q ∈ tbl.set i q := by
  rw [List.mem_iff_getElem?]
  exact ⟨i, by simp [h]⟩

/-- After a released operation the table passes the WRITE check for the event
again, when it passed it before. -/
theorem write_check_after_release (tbl : List queryInfo) (e qType tId : Int)
    (he : e ≠ 0) (hfree : findBlankEntry tbl ≠ -1) (hcan : canWrite tbl e = true) :
    findBlankEntry (tbl.set (findBlankEntry tbl).toNat ⟨0, qType, tId⟩) ≠ -1 ∧
    canWrite (tbl.set (findBlankEntry tbl).toNat ⟨0, qType, tId⟩) e = true := by
  constructor
  · rw [findBlankEntry_ne_neg_one]
    exact ⟨_, mem_set_self_of_lt tbl _ _ (findBlankEntry_toNat_lt tbl hfree), rfl⟩
  · rw [canWrite_iff] at hcan ⊢
    intro q hq
    rcases List.mem_or_eq_of_mem_set hq with h | h
    · exact hcan q h
    · rw [h]; exact fun h0 => he h0.symm

theorem admissionTable_of_check (can : List queryInfo → Int → Bool) (e : Int)
    (wake : Option (List queryInfo)) (tbl : List queryInfo)
    (hfree : findBlankEntry tbl ≠ -1) (hcan : can tbl e = true) :
    admissionTable can e wake tbl = some tbl := by
  unfold admissionTable
  rw [if_neg]
  rintro (h | h)
  · exact hfree h
  · rw [hcan] at h; exact absurd h (by decide)

/-- Claim C5, amended. On every ledger, for a valid event `e` and
`1 <= k <= availableSeats[e]`, a `bookEvent(e, k, t)` that is admitted (at its
first check or after a wait) returns 1 and takes `k` seats. When the booking
`(k, e)` is appended to the record and `cancelEvent` picks that booking on
the state the book has left: if the cancel is admitted (the table `tbl2` seen
by its second `findBlankEntry` call has a free slot), it returns 1, removes
the booking from the record and leaves `availableSeats[e]` equal to its value
before the book minus `k` plus `n`, where `n = rand() % k + 1` is the number
of seats drawn at line 271, with `1 <= n <= k`; the ledger is back at its
value before the book exactly when `n = k`, and every other event is
unchanged. If the cancel finds no free slot after its wait, it returns -1,
keeps the record and leaves the ledger as the book left it; if it waits and is
never woken it does not return. When the book has passed the WRITE check
without waiting, the cancel passes it too and is admitted. -/
theorem book_then_cancel_ledger (eId k tId : Int) (bookings : List (Int × Int))
    (randPos randSeats : Nat) (wake : Option (List queryInfo)) (s : State)
    (tbl : List queryInfo)
    (hm : s.tableMutex = false) (hs : s.seatMutex = false)
    (hadm : admissionTable canWrite eId wake s.sharedTable = some tbl)
    (hfree : findBlankEntry tbl ≠ -1)
    (he1 : 1 ≤ eId) (he2 : eId ≤ numOfEvents)
    (hlen : s.availableSeats.length = numOfEvents + 1)
    (hk1 : 1 ≤ k) (hk : k ≤ seatsAt s.availableSeats eId)
    (hpick : pickedPos (bookings ++ [(k, eId)]) randPos = bookings.length) :
    ∃ s1, bookEvent eId k tId wake s = some (1, s1) ∧
      seatsAt s1.availableSeats eId = seatsAt s.availableSeats eId - k ∧
      1 ≤ getRandomNumberInRange randSeats 1 k ∧
      getRandomNumberInRange randSeats 1 k ≤ k ∧
      (∀ (wake2 : Option (List queryInfo)) (tbl2 : List queryInfo),
        admissionTable canWrite eId wake2 s1.sharedTable = some tbl2 →
        findBlankEntry tbl2 ≠ -1 →
        ∃ s2, cancelEvent tId (bookings ++ [(k, eId)]) randPos randSeats wake2 s1
            = some (1, bookings, s2) ∧
          seatsAt s2.availableSeats eId
            = seatsAt s.availableSeats eId - k + getRandomNumberInRange randSeats 1 k ∧
          (seatsAt s2.availableSeats eId = seatsAt s.availableSeats eId ↔
            getRandomNumberInRange randSeats 1 k = k) ∧
          ∀ e2, e2 ≠ eId →
            seatsAt s2.availableSeats e2 = seatsAt s.availableSeats e2) ∧
      (∀ (wake2 : Option (List queryInfo)) (tbl2 : List queryInfo),
        admissionTable canWrite eId wake2 s1.sharedTable = some tbl2 →
        findBlankEntry tbl2 = -1 →
        ∃ s2, cancelEvent tId (bookings ++ [(k, eId)]) randPos randSeats wake2 s1
            = some (-1, bookings ++ [(k, eId)], s2) ∧
          s2.availableSeats = s1.availableSeats) ∧
      (∀ wake2 : Option (List queryInfo),
        admissionTable canWrite eId wake2 s1.sharedTable = none →
        cancelEvent tId (bookings ++ [(k, eId)]) randPos randSeats wake2 s1 = none) ∧
      (findBlankEntry s.sharedTable ≠ -1 → canWrite s.sharedTable eId = true →
        ∀ wake2 : Option (List queryInfo),
          admissionTable canWrite eId wake2 s1.sharedTable = some s1.sharedTable ∧
          findBlankEntry s1.sharedTable ≠ -1) := by
  have hidx : eId.toNat < s.availableSeats.length := by
    rw [hlen]; omega
  have he0 : eId ≠ 0 := by omega
  have hbook := bookEvent_booked eId k tId wake s tbl hm hs hadm hfree (by omega)
  have hb : pickedBooking (bookings ++ [(k, eId)]) randPos = (k, eId) := by
    unfold pickedBooking
    rw [hpick]
    simp
  have hseats : pickedSeats (bookings ++ [(k, eId)]) randPos randSeats
      = getRandomNumberInRange randSeats 1 k := by
    unfold pickedSeats
    rw [hb]
  have hne : bookings ++ [(k, eId)] ≠ [] := by simp
  have herase : (bookings ++ [(k, eId)]).eraseIdx bookings.length = bookings := by
    rw [List.eraseIdx_append_of_length_le (Nat.le_refl _)]
    simp
  obtain ⟨hn1, hn2⟩ := getRandomNumberInRange_bounds randSeats 1 k hk1
  have hidx1 : eId.toNat <
      (s.availableSeats.set eId.toNat (seatsAt s.availableSeats eId - k)).length := by
    simpa using hidx
  have hval : seatsAt (released s tbl 1 tId
      (s.availableSeats.set eId.toNat (seatsAt s.availableSeats eId - k))
      (Msg.bookOk tId eId k)).availableSeats eId = seatsAt s.availableSeats eId - k :=
    seatsAt_set_self _ _ _ hidx
  refine ⟨_, hbook, hval, hn1, hn2, ?_, ?_, ?_, ?_⟩
  · intro wake2 tbl2 hadm2 hfree2
    have hcancel := cancelEvent_done tId (bookings ++ [(k, eId)]) randPos randSeats wake2
      (released s tbl 1 tId
        (s.availableSeats.set eId.toNat (seatsAt s.availableSeats eId - k))
        (Msg.bookOk tId eId k))
      tbl2 hne rfl rfl (by rw [hb]; exact hadm2) hfree2
    rw [hb, hseats, hpick, herase] at hcancel
    refine ⟨_, hcancel, ?_, ?_, ?_⟩
    · simp only [released] at hval ⊢
      rw [seatsAt_set_self _ _ _ hidx1, hval]
    · simp only [released] at hval ⊢
      rw [seatsAt_set_self _ _ _ hidx1, hval]
      constructor <;> intro h <;> omega
    · intro e2 h2
      have hne2 := toNat_ne_of_valid eId e2 he1 h2
      simp only [released]
      rw [seatsAt_set_other _ _ _ _ hne2, seatsAt_set_other _ _ _ _ hne2]
  · intro wake2 tbl2 hadm2 hfull2
    exact ⟨_, cancelEvent_full tId (bookings ++ [(k, eId)]) randPos randSeats wake2 _
      tbl2 hne rfl (by rw [hb]; exact hadm2) hfull2, rfl⟩
  · intro wake2 hadm2
    exact cancelEvent_blocked tId (bookings ++ [(k, eId)]) randPos randSeats wake2 _
      hne rfl (by rw [hb]; exact hadm2)
  · intro hfree0 hcan0 wake2
    have htbl : tbl = s.sharedTable := by
      rw [admissionTable_of_check canWrite eId wake s.sharedTable hfree0 hcan0] at hadm
      exact (Option.some.inj hadm).symm
    subst htbl
    obtain ⟨hfree1, hcan1⟩ :=
      write_check_after_release s.sharedTable eId 1 tId he0 hfree0 hcan0
    exact ⟨admissionTable_of_check canWrite eId wake2 _ hfree1 hcan1, hfree1⟩

/-- Witness of C5 as amended, on the scenario of the specification with the
draw `rand() = 6` at line 271, which cancels all 7 seats: the book leaves 3
seats and the cancel, admitted at once, leaves 10. -/
theorem book_then_cancel_ledger_witness :
    pickedPos ([] ++ [((7 : Int), (1 : Int))]) 0 = 0 ∧
    getRandomNumberInRange 6 1 7 = 7 ∧
    bookEvent 1 7 0 none scenarioStart = some (1, scenarioBooked) ∧
    cancelEvent 0 ([] ++ [(7, 1)]) 0 6 none scenarioBooked = some (1, [], scenarioCancelled) ∧
    seatsAt scenarioCancelled.availableSeats 1 = 10 ∧
    ∃ s1, bookEvent 1 7 0 none scenarioStart = some (1, s1) ∧
      seatsAt s1.availableSeats 1 = seatsAt scenarioStart.availableSeats 1 - 7 ∧
      1 ≤ getRandomNumberInRange 6 1 7 ∧
      getRandomNumberInRange 6 1 7 ≤ 7 ∧
      (∀ (wake2 : Option (List queryInfo)) (tbl2 : List queryInfo),
        admissionTable canWrite 1 wake2 s1.sharedTable = some tbl2 →
        findBlankEntry tbl2 ≠ -1 →
        ∃ s2, cancelEvent 0 ([] ++ [(7, 1)]) 0 6 wake2 s1 = some (1, [], s2) ∧
          seatsAt s2.availableSeats 1
            = seatsAt scenarioStart.availableSeats 1 - 7 + getRandomNumberInRange 6 1 7 ∧
          (seatsAt s2.availableSeats 1 = seatsAt scenarioStart.availableSeats 1 ↔
            getRandomNumberInRange 6 1 7 = 7) ∧
          ∀ e2, e2 ≠ 1 →
            seatsAt s2.availableSeats e2 = seatsAt scenarioStart.availableSeats e2) ∧
      (∀ (wake2 : Option (List queryInfo)) (tbl2 : List queryInfo),
        admissionTable canWrite 1 wake2 s1.sharedTable = some tbl2 →
        findBlankEntry tbl2 = -1 →
        ∃ s2, cancelEvent 0 ([] ++ [(7, 1)]) 0 6 wake2 s1
            = some (-1, [] ++ [(7, 1)], s2) ∧
          s2.availableSeats = s1.availableSeats) ∧
      (∀ wake2 : Option (List queryInfo),
        admissionTable canWrite 1 wake2 s1.sharedTable = none →
        cancelEvent 0 ([] ++ [(7, 1)]) 0 6 wake2 s1 = none) ∧
      (findBlankEntry scenarioStart.sharedTable ≠ -1 →
        canWrite scenarioStart.sharedTable 1 = true →
        ∀ wake2 : Option (List queryInfo),
          admissionTable canWrite 1 wake2 s1.sharedTable = some s1.sharedTable ∧
          findBlankEntry s1.sharedTable ≠ -1) :=
  ⟨by decide, by decide, by rfl, by rfl, by rfl,
    book_then_cancel_ledger 1 7 0 [] 0 6 none scenarioStart initTable rfl rfl
      (by rfl) (by decide) (by decide) (by decide) (by rfl) (by decide) (by decide)
      (by decide)⟩

/-- Counterexample to C5 as stated, on the scenario of the specification: with
10 seats, client 0 books 7 seats of event 1 and then cancels that booking; the
draw `rand() = 2` at line 271 gives `numOfSeats = 3`, the booking is erased and
`availableSeats[1]` is 6, not 10. -/
theorem book_then_cancel_not_restored :
    bookEvent 1 7 0 none scenarioStart = some (1, scenarioBooked) ∧
    (cancelEvent 0 [(7, 1)] 0 2 none scenarioBooked).map
        (fun r => (r.1, r.2.1, seatsAt r.2.2.availableSeats 1))
      = some (1, [], 6) ∧
    seatsAt scenarioStart.availableSeats 1 = 10 :=
  ⟨by rfl, by rfl, by rfl⟩

/-! ## Return paths: slots and locks -/

/-- Claim C1, evaluation of the code at the failing input: on the empty table,
with 3 seats left for event 1, `bookEvent(1, 5, 0)` returns -1 and slot 0 still
holds event 1, so the table has 4 free slots where it had 5. -/
theorem bookEvent_insufficient_keeps_slot :
    bookEvent 1 5 0 none ⟨initTable, lowSeats, false, false, []⟩ =
      some (-1, ⟨[⟨1, 1, 0⟩, ⟨0, 0, 0⟩, ⟨0, 0, 0⟩, ⟨0, 0, 0⟩, ⟨0, 0, 0⟩], lowSeats,
        false, false, [Msg.bookFail 0 1 5]⟩) ∧
    freeSlots initTable = 5 ∧
    freeSlots [⟨1, 1, 0⟩, ⟨0, 0, 0⟩, ⟨0, 0, 0⟩, ⟨0, 0, 0⟩, ⟨0, 0, 0⟩] = 4 :=
  ⟨by rfl, by rfl, by rfl⟩

/-- An operation that has been admitted on `tbl` and has released its slot
leaves as many free slots as `tbl` has. -/
theorem freeSlots_released (s : State) (tbl : List queryInfo) (qType tId : Int)
    (seats : List Int) (msg : Msg) (hfree : findBlankEntry tbl ≠ -1) :
    freeSlots (released s tbl qType tId seats msg).sharedTable = freeSlots tbl := by
  obtain ⟨n, hn, _, ⟨y, hy, hy0⟩, _⟩ := findBlankEntry_first tbl hfree
  have h := countP_set (fun q => decide (q.eventId = 0)) tbl n ⟨0, qType, tId⟩ y hy
  simp only [hy0, decide_True, if_true] at h
  simp only [released, freeSlots, hn, Int.toNat_ofNat]
  omega

/-- On every table and ledger: a `bookEvent` on a valid event that is admitted
on `tbl` and finds too few seats returns with one free slot less than `tbl`
has. -/
theorem freeSlots_insufficient (eId k tId : Int) (wake : Option (List queryInfo))
    (s : State) (tbl : List queryInfo) (hm : s.tableMutex = false)
    (hs : s.seatMutex = false)
    (h : admissionTable canWrite eId wake s.sharedTable = some tbl)
    (hfree : findBlankEntry tbl ≠ -1) (hk : k > seatsAt s.availableSeats eId)
    (he : eId ≠ 0) :
    ∃ s2, bookEvent eId k tId wake s = some (-1, s2) ∧
      freeSlots s2.sharedTable + 1 = freeSlots tbl := by
  refine ⟨_, bookEvent_insufficient eId k tId wake s tbl hm hs h hfree hk, ?_⟩
  obtain ⟨n, hn, _, ⟨y, hy, hy0⟩, _⟩ := findBlankEntry_first tbl hfree
  have hc := countP_set (fun q => decide (q.eventId = 0)) tbl n ⟨eId, 1, tId⟩ y hy
  simp only [hy0, he, decide_True, decide_False, Bool.false_eq_true, if_true, if_false,
    Nat.add_zero] at hc
  simp only [freeSlots, hn, Int.toNat_ofNat]
  exact hc

/-- Claim C7, evaluation of the code at the failing input: a call that finds
the table full, waits, and finds it full again when woken returns at line 166,
217 or 288 with `tableMutex` held. The last part is the concurrent run that
leads there: five inquiries fill the table, the book on event 6 waits, slot 0
is released and taken again by an inquiry on event 7, then the book resumes. -/
theorem full_table_return_keeps_tableMutex :
    bookEvent 6 5 0 (some fullTableAtWake) ⟨fullTable, initSeats, false, false, []⟩ =
      some (-1, ⟨fullTableAtWake, initSeats, true, false, []⟩) ∧
    run initSys [Action.call ⟨1, 0, 1⟩, Action.call ⟨2, 0, 2⟩, Action.call ⟨3, 0, 3⟩,
        Action.call ⟨4, 0, 4⟩, Action.call ⟨5, 0, 5⟩, Action.call ⟨6, 1, 0⟩,
        Action.release 0 0, Action.call ⟨7, 0, 6⟩, Action.resume 0] =
      some ⟨fullTableAtWake, [], [], true⟩ ∧
    inquireEvent 6 0 (some fullTableAtWake) ⟨fullTable, initSeats, false, false, []⟩ =
      some ⟨fullTableAtWake, initSeats, true, false, []⟩ ∧
    cancelEvent 0 [(5, 6)] 0 0 (some fullTableAtWake)
        ⟨fullTable, initSeats, false, false, []⟩ =
      some (-1, [(5, 6)], ⟨fullTableAtWake, initSeats, true, false, []⟩) :=
  ⟨by rfl, by rfl, by rfl, by rfl⟩

/-- Claim C2, evaluation of the code at the failing run. Thread 1 books event 1
and holds slot 0. Thread 2 calls `bookEvent` on event 1, fails the check and
waits. Thread 3 inquires event 2 in slot 1, releases it and signals, which
wakes thread 2. Thread 2 goes on from line 215 without a second call of
`canWrite`, finds slot 1 free and writes it: slots 0 and 1 are two BOOK
entries on event 1, in a table where `canWrite(1)` is false. The same
assignment is the result of the admission code of `bookEvent` for thread 2. -/
theorem resumed_call_breaks_mutual_exclusion :
    run initSys [Action.call ⟨1, 1, 1⟩, Action.call ⟨1, 1, 2⟩, Action.call ⟨2, 0, 3⟩,
        Action.release 1 0, Action.resume 0] =
      some ⟨[⟨1, 1, 1⟩, ⟨1, 1, 2⟩, ⟨0, 0, 0⟩, ⟨0, 0, 0⟩, ⟨0, 0, 0⟩], [], [], false⟩ ∧
    run initSys [Action.call ⟨1, 1, 1⟩, Action.call ⟨1, 1, 2⟩, Action.call ⟨2, 0, 3⟩,
        Action.release 1 0] =
      some ⟨[⟨1, 1, 1⟩, ⟨0, 0, 3⟩, ⟨0, 0, 0⟩, ⟨0, 0, 0⟩, ⟨0, 0, 0⟩], [], [⟨1, 1, 2⟩], false⟩ ∧
    canWrite [⟨1, 1, 1⟩, ⟨0, 0, 3⟩, ⟨0, 0, 0⟩, ⟨0, 0, 0⟩, ⟨0, 0, 0⟩] 1 = false ∧
    (enterTable canWrite 1 1 2
        (some [⟨1, 1, 1⟩, ⟨0, 0, 3⟩, ⟨0, 0, 0⟩, ⟨0, 0, 0⟩, ⟨0, 0, 0⟩])
        ⟨[⟨1, 1, 1⟩, ⟨0, 0, 0⟩, ⟨0, 0, 0⟩, ⟨0, 0, 0⟩, ⟨0, 0, 0⟩], initSeats, false, false, []⟩).map
        (fun r => (r.1, r.2.sharedTable))
      = some (some 1, [⟨1, 1, 1⟩, ⟨1, 1, 2⟩, ⟨0, 0, 0⟩, ⟨0, 0, 0⟩, ⟨0, 0, 0⟩]) ∧
    writersOn [⟨1, 1, 1⟩, ⟨1, 1, 2⟩, ⟨0, 0, 0⟩, ⟨0, 0, 0⟩, ⟨0, 0, 0⟩] 1 = 2 ∧
    ¬ mutualExclusion [⟨1, 1, 1⟩, ⟨1, 1, 2⟩, ⟨0, 0, 0⟩, ⟨0, 0, 0⟩, ⟨0, 0, 0⟩] := by
  refine ⟨by rfl, by rfl, by rfl, by rfl, by rfl, ?_⟩
  intro h
  have h1 := h 1 (by decide)
  revert h1
  decide

theorem clearSlot_eq_set (tbl : List queryInfo) (i : Nat) (y : queryInfo)
    (h : tbl[i]? = some y) :
    clearSlot tbl (i : Int) = tbl.set i ⟨0, y.qType, y.threadId⟩ := by
  unfold clearSlot
  rw [Int.toNat_ofNat, modify_of_getElem? _ _ _ y h]

/-- The release code keeps invariant I2. -/
theorem mutualExclusion_clearSlot (tbl : List queryInfo) (i : Nat) (y : queryInfo)
    (h : tbl[i]? = some y) (hinv : mutualExclusion tbl) :
    mutualExclusion (clearSlot tbl (i : Int)) := by
  intro e he
  rw [clearSlot_eq_set tbl i y h]
  have hw := countP_set
    (fun q => decide (q.eventId = e ∧ (q.qType = 1 ∨ q.qType = 2))) tbl i
    ⟨0, y.qType, y.threadId⟩ y h
  have hr := countP_set (fun q => decide (q.eventId = e ∧ q.qType = 0)) tbl i
    ⟨0, y.qType, y.threadId⟩ y h
  have h0 : ¬ ((0 : Int) = e) := fun h0 => he h0.symm
  simp only [h0, false_and, decide_False, Bool.false_eq_true, if_false, Nat.add_zero] at hw hr
  have := hinv e he
  unfold writersOn readersOn at this ⊢
  split_ifs at hw hr <;> omega

/-- The admission code keeps invariant I2 when the slot is written in a table
that passes the first check. -/
theorem mutualExclusion_admit (tbl : List queryInfo) (q : queryInfo)
    (hq : validQuery q) (hcheck : firstCheck q tbl = true)
    (hinv : mutualExclusion tbl) :
    mutualExclusion (tbl.set (findBlankEntry tbl).toNat q) := by
  unfold firstCheck at hcheck
  simp only [Bool.and_eq_true, decide_eq_true_eq] at hcheck
  obtain ⟨hfree, hcan⟩ := hcheck
  obtain ⟨n, hn, _, ⟨y, hy, hy0⟩, _⟩ := findBlankEntry_first tbl hfree
  rw [hn, Int.toNat_ofNat]
  obtain ⟨hq1, _, hkind⟩ := hq
  intro e he
  have hw := countP_set
    (fun x => decide (x.eventId = e ∧ (x.qType = 1 ∨ x.qType = 2))) tbl n q y hy
  have hr := countP_set (fun x => decide (x.eventId = e ∧ x.qType = 0)) tbl n q y hy
  have h0 : ¬ (y.eventId = e) := by rw [hy0]; exact fun h0 => he h0.symm
  simp only [h0, false_and, decide_False, Bool.false_eq_true, if_false, Nat.add_zero] at hw hr
  have hold := hinv e he
  unfold writersOn readersOn at hold ⊢
  by_cases hqe : q.eventId = e
  · by_cases hk : q.qType = 0
    · rw [if_pos hk, canRead_iff] at hcan
      have hnow : tbl.countP
          (fun x => decide (x.eventId = e ∧ (x.qType = 1 ∨ x.qType = 2))) = 0 := by
        rw [List.countP_eq_zero]
        intro x hx
        simp only [decide_eq_true_eq, not_and]
        intro hxe hx12
        have := hcan x hx (hxe.trans hqe.symm)
        omega
      have hq12 : ¬ (q.qType = 1 ∨ q.qType = 2) := by omega
      simp only [hqe, hq12, and_false, decide_False, Bool.false_eq_true, if_false,
        Nat.add_zero] at hw
      left
      omega
    · rw [if_neg hk, canWrite_iff] at hcan
      have hnone : ∀ (f : queryInfo → Prop) [DecidablePred f],
          tbl.countP (fun x => decide (x.eventId = e ∧ f x)) = 0 := by
        intro f _
        rw [List.countP_eq_zero]
        intro x hx
        simp only [decide_eq_true_eq, not_and]
        intro hxe
        exact absurd (hxe.trans hqe.symm) (hcan x hx)
      have hw0 := hnone (fun x => x.qType = 1 ∨ x.qType = 2)
      have hr0 := hnone (fun x => x.qType = 0)
      have hq12 : q.qType = 1 ∨ q.qType = 2 := by omega
      simp only [hqe, hq12, hk, and_self, and_false, decide_True, decide_False,
        Bool.false_eq_true, if_true, if_false, Nat.add_zero] at hw hr
      right
      omega
  · simp only [hqe, false_and, decide_False, Bool.false_eq_true, if_false,
      Nat.add_zero] at hw hr
    omega

/-- Every atomic section other than the `resume` section keeps invariant I2. -/
theorem mutualExclusion_step (s s2 : Sys) (a : Action) (hres : ∀ n, a ≠ Action.resume n)
    (h : step s a = some s2) (hinv : mutualExclusion s.sharedTable) :
    mutualExclusion s2.sharedTable := by
  cases a with
  | call q =>
    rw [step] at h
    by_cases hc : s.tableMutex = true ∨ ¬ validQuery q
    · rw [if_pos hc] at h; cases h
    · rw [if_neg hc] at h
      push_neg at hc
      by_cases hf : firstCheck q s.sharedTable = true
      · rw [if_pos hf] at h
        simp only [Option.some.injEq] at h
        subst h
        exact mutualExclusion_admit s.sharedTable q hc.2 hf hinv
      · rw [if_neg hf] at h
        simp only [Option.some.injEq] at h
        subst h
        exact hinv
  | release i w =>
    rw [step] at h
    by_cases hc : s.tableMutex = true
    · rw [if_pos hc] at h; cases h
    · rw [if_neg hc] at h
      cases hy : s.sharedTable[i]? with
      | none => rw [hy] at h; cases h
      | some y =>
        rw [hy] at h
        simp only at h
        have hclear := mutualExclusion_clearSlot s.sharedTable i y hy hinv
        by_cases h0 : y.eventId = 0
        · rw [if_pos h0] at h; cases h
        · rw [if_neg h0] at h
          cases hx : s.waiting[w]? with
          | none =>
            rw [hx] at h
            simp only at h
            by_cases he : s.waiting = []
            · rw [if_pos he] at h
              simp only [Option.some.injEq] at h
              subst h
              exact hclear
            · rw [if_neg he] at h; cases h
          | some x =>
            rw [hx] at h
            simp only [Option.some.injEq] at h
            subst h
            exact hclear
  | resume n => exact absurd rfl (hres n)

theorem mutualExclusion_initTable : mutualExclusion initTable := by
  intro e he
  left
  unfold writersOn
  rw [List.countP_eq_zero]
  intro q hq
  simp only [initTable, List.mem_replicate] at hq
  simp only [hq.2, decide_eq_true_eq, not_and]
  intro h0
  exact absurd h0.symm he

/-- Runs in which no call resumes after a wait keep invariant I2: the calls
admitted at the first check and the releases never break it. -/
theorem mutualExclusion_run (s s2 : Sys) (acts : List Action)
    (hres : ∀ a ∈ acts, ∀ n, a ≠ Action.resume n)
    (h : run s acts = some s2) (hinv : mutualExclusion s.sharedTable) :
    mutualExclusion s2.sharedTable := by
  induction acts generalizing s with
  | nil =>
    simp only [run, Option.some.injEq] at h
    subst h
    exact hinv
  | cons a rest ih =>
    rw [run] at h
    cases hs : step s a with
    | none => rw [hs] at h; cases h
    | some s1 =>
      rw [hs] at h
      exact ih s1 (fun b hb => hres b (List.mem_cons_of_mem _ hb)) h
        (mutualExclusion_step s s1 a (hres a (List.mem_cons_self _ _)) hs hinv)

theorem kindInv_step (s s2 : Sys) (a : Action) (h : step s a = some s2)
    (hinv : KindInv s) : KindInv s2 := by
  obtain ⟨htbl, hwait, hwoken⟩ := hinv
  have hset : ∀ (i : Nat) (q : queryInfo), (q.qType = 0 ∨ q.qType = 1 ∨ q.qType = 2) →
      ∀ x ∈ s.sharedTable.set i q, x.qType = 0 ∨ x.qType = 1 ∨ x.qType = 2 := by
    intro i q hq x hx
    rcases List.mem_or_eq_of_mem_set hx with h1 | h1
    · exact htbl x h1
    · rw [h1]; exact hq
  cases a with
  | call q =>
    rw [step] at h
    by_cases hc : s.tableMutex = true ∨ ¬ validQuery q
    · rw [if_pos hc] at h; cases h
    · rw [if_neg hc] at h
      push_neg at hc
      by_cases hf : firstCheck q s.sharedTable = true
      · rw [if_pos hf] at h
        simp only [Option.some.injEq] at h
        subst h
        exact ⟨hset _ q hc.2.2.2, hwait, hwoken⟩
      · rw [if_neg hf] at h
        simp only [Option.some.injEq] at h
        subst h
        refine ⟨htbl, ?_, hwoken⟩
        intro x hx
        rcases List.mem_append.mp hx with h1 | h1
        · exact hwait x h1
        · simp only [List.mem_singleton] at h1
          rw [h1]; exact hc.2
  | release i w =>
    rw [step] at h
    by_cases hc : s.tableMutex = true
    · rw [if_pos hc] at h; cases h
    · rw [if_neg hc] at h
      cases hy : s.sharedTable[i]? with
      | none => rw [hy] at h; cases h
      | some y =>
        rw [hy] at h
        simp only at h
        have hclear : ∀ x ∈ clearSlot s.sharedTable (i : Int),
            x.qType = 0 ∨ x.qType = 1 ∨ x.qType = 2 := by
          rw [clearSlot_eq_set s.sharedTable i y hy]
          exact hset i _ (htbl y (List.getElem?_mem hy))
        by_cases h0 : y.eventId = 0
        · rw [if_pos h0] at h; cases h
        · rw [if_neg h0] at h
          cases hx : s.waiting[w]? with
          | none =>
            rw [hx] at h
            simp only at h
            by_cases he : s.waiting = []
            · rw [if_pos he] at h
              simp only [Option.some.injEq] at h
              subst h
              exact ⟨hclear, hwait, hwoken⟩
            · rw [if_neg he] at h; cases h
          | some x =>
            rw [hx] at h
            simp only [Option.some.injEq] at h
            subst h
            refine ⟨hclear, fun z hz => hwait z (List.mem_of_mem_eraseIdx hz), ?_⟩
            intro z hz
            rcases List.mem_append.mp hz with h1 | h1
            · exact hwoken z h1
            · simp only [List.mem_singleton] at h1
              rw [h1]; exact hwait x (List.getElem?_mem hx)
  | resume n =>
    rw [step] at h
    by_cases hc : s.tableMutex = true
    · rw [if_pos hc] at h; cases h
    · rw [if_neg hc] at h
      cases hy : s.woken[n]? with
      | none => rw [hy] at h; cases h
      | some y =>
        rw [hy] at h
        simp only at h
        have hrest : ∀ z ∈ s.woken.eraseIdx n, validQuery z :=
          fun z hz => hwoken z (List.mem_of_mem_eraseIdx hz)
        by_cases hf : findBlankEntry s.sharedTable = -1
        · rw [if_pos hf] at h
          simp only [Option.some.injEq] at h
          subst h
          exact ⟨htbl, hwait, hrest⟩
        · rw [if_neg hf] at h
          simp only [Option.some.injEq] at h
          subst h
          exact ⟨hset _ y (hwoken y (List.getElem?_mem hy)).2.2, hwait, hrest⟩

/-- Every table of a concurrent run from the start of the program holds only
the query types 0, 1 and 2. -/
theorem kindInv_run (s2 : Sys) (acts : List Action) (h : run initSys acts = some s2) :
    ∀ q ∈ s2.sharedTable, q.qType = 0 ∨ q.qType = 1 ∨ q.qType = 2 := by
  have hgen : ∀ (acts : List Action) (s : Sys), KindInv s → run s acts = some s2 →
      KindInv s2 := by
    intro acts
    induction acts with
    | nil =>
      intro s hinv h
      simp only [run, Option.some.injEq] at h
      subst h
      exact hinv
    | cons a rest ih =>
      intro s hinv h
      rw [run] at h
      cases hs : step s a with
      | none => rw [hs] at h; cases h
      | some s1 =>
        rw [hs] at h
        exact ih s1 (kindInv_step s s1 a hs hinv) h
  have hinit : KindInv initSys := by
    refine ⟨?_, ?_, ?_⟩
    · intro q hq
      simp only [initSys, initTable, List.mem_replicate] at hq
      left
      rw [hq.2]
    · intro q hq; cases hq
    · intro q hq; cases hq
  exact (hgen acts initSys hinit h).1

/-! ## Worker threads and seat bounds -/

theorem bookEvent_cases (e k t : Int) (wake : Option (List queryInfo)) (s s2 : State)
    (r : Int) (hm : s.tableMutex = false) (hs : s.seatMutex = false)
    (h : bookEvent e k t wake s = some (r, s2)) :
    (r = -1 ∧ s2.availableSeats = s.availableSeats) ∨
    (r = 1 ∧ k ≤ seatsAt s.availableSeats e ∧
      s2.availableSeats = s.availableSeats.set e.toNat (seatsAt s.availableSeats e - k)) := by
  cases hadm : admissionTable canWrite e wake s.sharedTable with
  | none =>
    rw [bookEvent_blocked e k t wake s hm hadm] at h
    cases h
  | some tbl =>
    by_cases hfull : findBlankEntry tbl = -1
    · rw [bookEvent_full e k t wake s tbl hm hadm hfull] at h
      simp only [Option.some.injEq, Prod.mk.injEq] at h
      obtain ⟨h1, h2⟩ := h
      subst h1 h2
      exact Or.inl ⟨rfl, rfl⟩
    · by_cases hk : k > seatsAt s.availableSeats e
      · rw [bookEvent_insufficient e k t wake s tbl hm hs hadm hfull hk] at h
        simp only [Option.some.injEq, Prod.mk.injEq] at h
        obtain ⟨h1, h2⟩ := h
        subst h1 h2
        exact Or.inl ⟨rfl, rfl⟩
      · rw [bookEvent_booked e k t wake s tbl hm hs hadm hfull hk] at h
        simp only [Option.some.injEq, Prod.mk.injEq] at h
        obtain ⟨h1, h2⟩ := h
        subst h1 h2
        exact Or.inr ⟨rfl, by omega, rfl⟩

theorem inquireEvent_seats (e t : Int) (wake : Option (List queryInfo)) (s s2 : State)
    (hm : s.tableMutex = false) (hs : s.seatMutex = false)
    (h : inquireEvent e t wake s = some s2) :
    s2.availableSeats = s.availableSeats := by
  cases hadm : admissionTable canRead e wake s.sharedTable with
  | none =>
    rw [inquireEvent_blocked e t wake s hm hadm] at h
    cases h
  | some tbl =>
    by_cases hfull : findBlankEntry tbl = -1
    · rw [inquireEvent_full e t wake s tbl hm hadm hfull] at h
      simp only [Option.some.injEq] at h
      subst h
      rfl
    · rw [inquireEvent_done e t wake s tbl hm hs hadm hfull] at h
      simp only [Option.some.injEq] at h
      subst h
      rfl

theorem cancelEvent_cases (t : Int) (bookings bookings2 : List (Int × Int))
    (randPos randSeats : Nat) (wake : Option (List queryInfo)) (s s2 : State) (r : Int)
    (hm : s.tableMutex = false) (hs : s.seatMutex = false)
    (h : cancelEvent t bookings randPos randSeats wake s = some (r, bookings2, s2)) :
    (bookings2 = bookings ∧ s2.availableSeats = s.availableSeats) ∨
    (bookings ≠ [] ∧ bookings2 = bookings.eraseIdx (pickedPos bookings randPos) ∧
      s2.availableSeats = s.availableSeats.set (pickedBooking bookings randPos).2.toNat
        (seatsAt s.availableSeats (pickedBooking bookings randPos).2
          + pickedSeats bookings randPos randSeats)) := by
  by_cases hne : bookings = []
  · subst hne
    rw [cancelEvent_empty] at h
    simp only [Option.some.injEq, Prod.mk.injEq] at h
    obtain ⟨_, h1, h2⟩ := h
    subst h1 h2
    exact Or.inl ⟨rfl, rfl⟩
  · cases hadm : admissionTable canWrite (pickedBooking bookings randPos).2 wake
        s.sharedTable with
    | none =>
      rw [cancelEvent_blocked t bookings randPos randSeats wake s hne hm hadm] at h
      cases h
    | some tbl =>
      by_cases hfull : findBlankEntry tbl = -1
      · rw [cancelEvent_full t bookings randPos randSeats wake s tbl hne hm hadm hfull] at h
        simp only [Option.some.injEq, Prod.mk.injEq] at h
        obtain ⟨_, h1, h2⟩ := h
        subst h1 h2
        exact Or.inl ⟨rfl, rfl⟩
      · rw [cancelEvent_done t bookings randPos randSeats wake s tbl hne hm hs hadm hfull] at h
        simp only [Option.some.injEq, Prod.mk.injEq] at h
        obtain ⟨_, h1, h2⟩ := h
        subst h1 h2
        exact Or.inr ⟨hne, rfl, rfl⟩

theorem bookedIn_append_single (e : Int) (r : List (Int × Int)) (b : Int × Int) :
    bookedIn e (r ++ [b]) = bookedIn e r + (if b.2 = e then b.1 else 0) := by
  unfold bookedIn
  by_cases hb : b.2 = e
  · simp [List.filter_append, List.filter_cons, hb]
  · simp [List.filter_append, List.filter_cons, hb]

theorem bookedIn_eraseIdx (e : Int) (r : List (Int × Int)) (pos : Nat) (b : Int × Int)
    (h : r[pos]? = some b) :
    bookedIn e (r.eraseIdx pos) = bookedIn e r - (if b.2 = e then b.1 else 0) := by
  induction r generalizing pos with
  | nil => simp at h
  | cons a rest ih =>
    cases pos with
    | zero =>
      simp only [List.getElem?_cons_zero, Option.some.injEq] at h
      subst h
      unfold bookedIn
      by_cases ha : a.2 = e
      · simp [List.filter_cons, ha]
      · simp [List.filter_cons, ha]
    | succ pos =>
      simp only [List.getElem?_cons_succ] at h
      have ih2 := ih pos h
      unfold bookedIn at ih2 ⊢
      by_cases ha : a.2 = e
      · simp only [List.eraseIdx_cons_succ, List.filter_cons, ha, decide_True, if_true,
          List.map_cons, List.sum_cons, ih2]
        omega
      · simp only [List.eraseIdx_cons_succ, List.filter_cons, ha, decide_False,
          Bool.false_eq_true, if_false, ih2]

theorem bookedIn_nonneg (e : Int) (r : List (Int × Int)) (h : ∀ b ∈ r, 1 ≤ b.1) :
    0 ≤ bookedIn e r := by
  unfold bookedIn
  apply List.sum_nonneg
  intro x hx
  simp only [List.mem_map, List.mem_filter] at hx
  obtain ⟨b, ⟨hb, _⟩, rfl⟩ := hx
  have := h b hb
  omega

theorem booked_nonneg (e : Int) (bookings : List (List (Int × Int)))
    (h : ∀ r ∈ bookings, ∀ b ∈ r, 1 ≤ b.1) : 0 ≤ booked e bookings := by
  unfold booked
  apply List.sum_nonneg
  intro x hx
  simp only [List.mem_map] at hx
  obtain ⟨r, hr, rfl⟩ := hx
  exact bookedIn_nonneg e r (h r hr)

theorem pickedPos_lt (r : List (Int × Int)) (randPos : Nat) (hne : r ≠ []) :
    pickedPos r randPos < r.length := by
  have hpos : 0 < r.length := List.length_pos.mpr hne
  obtain ⟨h1, h2⟩ := getRandomNumberInRange_bounds randPos 0 ((r.length : Int) - 1)
    (by omega)
  unfold pickedPos
  omega

theorem pickedBooking_getElem? (r : List (Int × Int)) (randPos : Nat) (hne : r ≠ []) :
    r[pickedPos r randPos]? = some (pickedBooking r randPos) := by
  have hlt := pickedPos_lt r randPos hne
  unfold pickedBooking
  rw [List.getD_eq_getElem?_getD, List.getElem?_eq_getElem hlt]
  rfl

theorem seatInv_init : SeatInv initDriver := by
  refine ⟨by simp [initDriver, initSeats], ?_, ?_⟩
  · intro r hr b hb
    simp only [initDriver, List.mem_replicate] at hr
    rw [hr.2] at hb
    cases hb
  · intro e he1 he2
    have hb : booked e initDriver.bookings = 0 := by
      simp [booked, initDriver, bookedIn]
    have hs : seatsAt initDriver.availableSeats e = capacityOfAuditorium := by
      have hlt : e.toNat < numOfEvents + 1 := by omega
      simp [seatsAt, initDriver, initSeats, List.getElem?_replicate, hlt]
    rw [hb, hs]
    simp [capacityOfAuditorium]

theorem seatsAt_set (seats : List Int) (e e2 v : Int) (he : 1 ≤ e)
    (h : e.toNat < seats.length) :
    seatsAt (seats.set e.toNat v) e2 = if e2 = e then v else seatsAt seats e2 := by
  by_cases h2 : e2 = e
  · rw [if_pos h2, h2]
    exact seatsAt_set_self seats e v h
  · rw [if_neg h2]
    exact seatsAt_set_other seats e e2 v (toNat_ne_of_valid e e2 he h2)

/-- A successful book recorded by the worker keeps the invariant. -/
theorem seatInv_book (d : Driver) (worker : Nat) (e k : Int) (hinv : SeatInv d)
    (he1 : 1 ≤ e) (he2 : e ≤ numOfEvents) (hk1 : 1 ≤ k)
    (hk : k ≤ seatsAt d.availableSeats e) :
    SeatInv ⟨d.availableSeats.set e.toNat (seatsAt d.availableSeats e - k),
      d.bookings.modify (fun r => r ++ [(k, e)]) worker⟩ := by
  obtain ⟨hlen, hent, hbound⟩ := hinv
  have hidx : e.toNat < d.availableSeats.length := by rw [hlen]; omega
  cases hw : d.bookings[worker]? with
  | none =>
    rw [modify_of_none _ _ _ hw]
    refine ⟨by simpa using hlen, hent, ?_⟩
    intro e2 h1 h2
    obtain ⟨ha, hb⟩ := hbound e2 h1 h2
    simp only [seatsAt_set _ _ _ _ he1 hidx]
    by_cases h3 : e2 = e
    · subst h3
      rw [if_pos rfl]
      constructor <;> omega
    · rw [if_neg h3]
      exact ⟨ha, hb⟩
  | some y =>
    rw [modify_of_getElem? _ _ _ y hw]
    have hy : y ∈ d.bookings := List.getElem?_mem hw
    refine ⟨by simpa using hlen, ?_, ?_⟩
    · intro r hr b hb
      rcases List.mem_or_eq_of_mem_set hr with h | h
      · exact hent r h b hb
      · subst h
        rcases List.mem_append.mp hb with h | h
        · exact hent y hy b h
        · simp only [List.mem_singleton] at h
          subst h
          exact ⟨hk1, he1, he2⟩
    · intro e2 h1 h2
      obtain ⟨ha, hb⟩ := hbound e2 h1 h2
      have hsum : booked e2 (d.bookings.set worker (y ++ [(k, e)]))
          = booked e2 d.bookings + (if e = e2 then k else 0) := by
        unfold booked
        rw [sum_map_set (bookedIn e2) d.bookings worker _ y hw, bookedIn_append_single]
        simp only
        omega
      simp only [seatsAt_set _ _ _ _ he1 hidx]
      rw [hsum]
      by_cases h3 : e2 = e
      · subst h3
        rw [if_pos rfl, if_pos rfl]
        constructor <;> omega
      · rw [if_neg h3, if_neg (Ne.symm h3)]
        constructor <;> omega

/-- A cancel of `n` seats of the booking `b`, which is then erased from the
record, keeps the invariant when `1 <= n <= b.1`. -/
theorem seatInv_cancel (d : Driver) (worker pos : Nat) (r : List (Int × Int))
    (b : Int × Int) (n : Int) (hinv : SeatInv d)
    (hw : d.bookings[worker]? = some r) (hpos : r[pos]? = some b)
    (hn1 : 1 ≤ n) (hn : n ≤ b.1) :
    SeatInv ⟨d.availableSeats.set b.2.toNat (seatsAt d.availableSeats b.2 + n),
      d.bookings.set worker (r.eraseIdx pos)⟩ := by
  obtain ⟨hlen, hent, hbound⟩ := hinv
  have hr : r ∈ d.bookings := List.getElem?_mem hw
  have hb : b ∈ r := List.getElem?_mem hpos
  obtain ⟨_, hb1, hb2⟩ := hent r hr b hb
  have hidx : b.2.toNat < d.availableSeats.length := by rw [hlen]; omega
  refine ⟨by simpa using hlen, ?_, ?_⟩
  · intro r2 hr2 b2 hb2
    rcases List.mem_or_eq_of_mem_set hr2 with h | h
    · exact hent r2 h b2 hb2
    · subst h
      exact hent r hr b2 (List.mem_of_mem_eraseIdx hb2)
  · intro e2 h1 h2
    obtain ⟨ha, hbd⟩ := hbound e2 h1 h2
    have hsum : booked e2 (d.bookings.set worker (r.eraseIdx pos))
        = booked e2 d.bookings - (if b.2 = e2 then b.1 else 0) := by
      unfold booked
      rw [sum_map_set (bookedIn e2) d.bookings worker _ r hw,
        bookedIn_eraseIdx e2 r pos b hpos]
      omega
    simp only [seatsAt_set _ _ _ _ hb1 hidx]
    rw [hsum]
    by_cases h3 : e2 = b.2
    · subst h3
      rw [if_pos rfl, if_pos rfl]
      constructor <;> omega
    · rw [if_neg h3, if_neg (Ne.symm h3)]
      constructor <;> omega

/-- One loop iteration of a worker thread keeps the invariant. -/
theorem seatInv_workerThread (d d2 : Driver) (worker : Nat) (threadId : Int)
    (randType randEvent randSeats randPos randCancel : Nat)
    (tbl : List queryInfo) (wake : Option (List queryInfo)) (hinv : SeatInv d)
    (h : workerThread worker threadId randType randEvent randSeats randPos randCancel
      tbl wake d = some d2) :
    SeatInv d2 := by
  unfold workerThread at h
  simp only at h
  obtain ⟨he1, he2⟩ := getRandomNumberInRange_bounds randEvent 1 numOfEvents
    (by simp [numOfEvents])
  obtain ⟨hk1, _⟩ := getRandomNumberInRange_bounds randSeats minTickets maxTickets
    (by simp [minTickets, maxTickets])
  by_cases hq0 : getRandomNumberInRange randType 0 3 = 0
  · rw [if_pos hq0] at h
    cases hi : inquireEvent (getRandomNumberInRange randEvent 1 numOfEvents) threadId wake
        ⟨tbl, d.availableSeats, false, false, []⟩ with
    | none => rw [hi] at h; cases h
    | some s2 =>
      rw [hi] at h
      simp only [Option.some.injEq] at h
      subst h
      rw [inquireEvent_seats _ _ _ _ _ rfl rfl hi]
      exact hinv
  · rw [if_neg hq0] at h
    by_cases hq1 : getRandomNumberInRange randType 0 3 = 1
    · rw [if_pos hq1] at h
      cases hb : bookEvent (getRandomNumberInRange randEvent 1 numOfEvents)
          (getRandomNumberInRange randSeats minTickets maxTickets) threadId wake
          ⟨tbl, d.availableSeats, false, false, []⟩ with
      | none => rw [hb] at h; cases h
      | some res =>
        obtain ⟨r, s2⟩ := res
        rw [hb] at h
        simp only [Option.some.injEq] at h
        subst h
        rcases bookEvent_cases _ _ _ _ _ _ _ rfl rfl hb with ⟨hr, hseats⟩ | ⟨hr, hk, hseats⟩
        · subst hr
          rw [hseats, if_neg (by decide)]
          exact hinv
        · subst hr
          rw [hseats, if_pos rfl]
          have hmin : minTickets = 5 := rfl
          exact seatInv_book d worker _ _ hinv he1 he2 (by omega) hk
    · rw [if_neg hq1] at h
      by_cases hq2 : getRandomNumberInRange randType 0 3 = 2
      · rw [if_pos hq2] at h
        cases hc : cancelEvent threadId (d.bookings.getD worker []) randPos randCancel wake
            ⟨tbl, d.availableSeats, false, false, []⟩ with
        | none => rw [hc] at h; cases h
        | some res =>
          obtain ⟨r, bookings2, s2⟩ := res
          rw [hc] at h
          simp only [Option.some.injEq] at h
          subst h
          rcases cancelEvent_cases _ _ _ _ _ _ _ _ _ rfl rfl hc with
            ⟨hbk, hseats⟩ | ⟨hne, hbk, hseats⟩
          · rw [hbk, hseats, set_getD_self]
            exact hinv
          · rw [hbk, hseats]
            have hw : d.bookings[worker]? = some (d.bookings.getD worker []) := by
              cases hx : d.bookings[worker]? with
              | none =>
                exfalso
                apply hne
                simp [List.getD_eq_getElem?_getD, hx]
              | some y => simp [List.getD_eq_getElem?_getD, hx]
            have hpos := pickedBooking_getElem? (d.bookings.getD worker []) randPos hne
            have hb := List.getElem?_mem hpos
            obtain ⟨hb1, _, _⟩ := hinv.2.1 _ (List.getElem?_mem hw) _ hb
            obtain ⟨hn1, hn2⟩ := getRandomNumberInRange_bounds randCancel 1
              (pickedBooking (d.bookings.getD worker []) randPos).1 hb1
            exact seatInv_cancel d worker _ _ _ _ hinv hw hpos hn1 hn2
      · rw [if_neg hq2] at h
        simp only [Option.some.injEq] at h
        subst h
        exact hinv

theorem seatInv_reachable (d : Driver) (h : Reachable d) : SeatInv d := by
  induction h with
  | init => exact seatInv_init
  | iteration d d2 worker threadId r1 r2 r3 r4 r5 tbl wake _ _ hstep ih =>
    exact seatInv_workerThread d d2 worker threadId r1 r2 r3 r4 r5 tbl wake ih hstep

/-- Claim C4. From the start of the program (every counter at
`capacityOfAuditorium`, every record empty), after any finite sequence of loop
iterations of the worker threads (a `bookEvent` with a seat count in
`[minTickets, maxTickets]` whose success is recorded, a `cancelEvent` on the
record of the worker with any draws, an inquiry, or the idle query type 3),
every event `e` in `1 .. numOfEvents` has
`0 <= availableSeats[e] <= capacityOfAuditorium`. -/
theorem seat_bounds (d : Driver) (h : Reachable d) (e : Int) (he1 : 1 ≤ e)
    (he2 : e ≤ numOfEvents) :
    0 ≤ seatsAt d.availableSeats e ∧ seatsAt d.availableSeats e ≤ capacityOfAuditorium := by
  obtain ⟨_, hent, hbound⟩ := seatInv_reachable d h
  obtain ⟨ha, hb⟩ := hbound e he1 he2
  have hnn := booked_nonneg e d.bookings (fun r hr b hb => (hent r hr b hb).1)
  exact ⟨ha, by omega⟩

/-- Witness of C4: the draws 1, 0, 2 of `rand()` make worker 0 book 7 seats of
event 1, which leaves 493 free seats. -/
theorem seat_bounds_witness :
    Reachable bookedOnce ∧ (1 : Int) ≤ 1 ∧ (1 : Int) ≤ numOfEvents ∧
    (0 ≤ seatsAt bookedOnce.availableSeats 1 ∧
      seatsAt bookedOnce.availableSeats 1 ≤ capacityOfAuditorium) ∧
    seatsAt bookedOnce.availableSeats 1 = 493 := by
  have hreach : Reachable bookedOnce :=
    Reachable.iteration initDriver bookedOnce 0 0 1 0 2 0 0 initTable none
      Reachable.init (by decide) (by rfl)
  exact ⟨hreach, by decide, by decide,
    seat_bounds bookedOnce hreach 1 (by decide) (by decide), by rfl⟩

end EventReservationSystem
